import Mathlib

/-!
# AD57X4R: datagram codec and device controller

A shallow embedding of `src/AD57X4R.cpp`, the SPI driver of the AD5724R / AD5734R /
AD5754R quad voltage-output DACs.

* Machine integers are `Nat` / `Int` with the truncations written out.
* The object's members (`chip_count_`, `resolution_`, `unipolar_`, `cs_pin_`) together with
  the trace of `SPI` / `digitalWrite` calls form an explicit `State`.
* The bus is a parameter: a `Transport` answers every `SPI.transfer` with a byte.
* `AD57X4R.h` is not among the sources.  Its constants and the bit-field layout of
  `union Datagram` are therefore taken as a parameter, the structure `Header`; what a
  theorem needs of them is stated as a hypothesis on that parameter.
-/

namespace AD57X4R

/-! ## The declarations of `AD57X4R.h` (a parameter) -/

/-- One bit-field of `Datagram::Fields`, seen through the `uint32` member of the union:
`width` bits starting at bit `offset` (bit 0 is the least significant). -/
structure BitField where
  offset : Nat
  width : Nat
  deriving DecidableEq, Repr

/-- The constants and the bit-field layout that `AD57X4R.cpp` takes from `AD57X4R.h`. -/
structure Header where
  CHIP_COUNT_MIN : Nat
  CHIP_COUNT_MAX : Nat
  CHANNEL_COUNT_PER_CHIP : Nat
  CHIP_INDEX_ALL : Int
  DATAGRAM_SIZE : Nat
  rw : BitField
  reg : BitField
  channel_address : BitField
  data : BitField
  RW_READ : Nat
  RW_WRITE : Nat
  REGISTER_DAC : Nat
  REGISTER_OUTPUT_RANGE : Nat
  REGISTER_POWER_CONTROL : Nat
  REGISTER_CONTROL : Nat
  CHANNEL_ADDRESS_A : Nat
  CHANNEL_ADDRESS_B : Nat
  CHANNEL_ADDRESS_C : Nat
  CHANNEL_ADDRESS_D : Nat
  CHANNEL_ADDRESS_ALL : Nat
  CHANNEL_ADDRESS_POWER_CONTROL : Nat
  CONTROL_ADDRESS_NOP : Nat
  CONTROL_ADDRESS_LOAD : Nat
  OUTPUT_RANGE_UNIPOLAR_5V : Nat
  OUTPUT_RANGE_UNIPOLAR_10V : Nat
  OUTPUT_RANGE_UNIPOLAR_10V8 : Nat
  OUTPUT_RANGE_BIPOLAR_5V : Nat
  OUTPUT_RANGE_BIPOLAR_10V : Nat
  OUTPUT_RANGE_BIPOLAR_10V8 : Nat
  POWER_CONTROL_DAC_A : Nat
  POWER_CONTROL_DAC_B : Nat
  POWER_CONTROL_DAC_C : Nat
  POWER_CONTROL_DAC_D : Nat
  POWER_CONTROL_REF : Nat
  POWER_CONTROL_THERMAL_SHUTDOWN : Nat
  POWER_CONTROL_OVERCURRENT_A : Nat
  POWER_CONTROL_OVERCURRENT_B : Nat
  POWER_CONTROL_OVERCURRENT_C : Nat
  POWER_CONTROL_OVERCURRENT_D : Nat

/-- The `enum Resolution` of the three chip variants, as the `switch` statements use it. -/
inductive Resolution where
  | AD5724R
  | AD5734R
  | AD5754R
  deriving DecidableEq, Repr

/-- The `enum Range`: the six enumerators named in `setOutputRangeToChip`, and any other
value of the underlying integer, which that function sends to its `default:` label. -/
inductive Range where
  | UNIPOLAR_5V
  | UNIPOLAR_10V
  | UNIPOLAR_10V8
  | BIPOLAR_5V
  | BIPOLAR_10V
  | BIPOLAR_10V8
  | unrecognised (raw : Nat)
  deriving DecidableEq, Repr

/-- The level written to a pin. -/
inductive Level where
  | LOW
  | HIGH
  deriving DecidableEq, Repr

/-! ## The bus -/

/-- A call the driver makes on its two collaborators, the SPI transport and the pins. -/
inductive Event where
  | spiBegin
  | spiBeginTransaction
  | digitalWrite (pin : Nat) (level : Level)
  | spiTransfer (byte_write : Nat) (byte_read : Nat)
  | spiEndTransaction
  deriving DecidableEq, Repr

/-- The behaviour of the transport: the value `SPI.transfer` returns, given every event
so far and the byte being shifted out. -/
abbrev Transport := List Event → Nat → Nat

/-- The members of an `AD57X4R` object that the modelled functions use, and the trace of
calls made so far (oldest first). -/
structure State where
  cs_pin_ : Nat
  chip_count_ : Nat
  resolution_ : Resolution
  unipolar_ : Bool
  events : List Event
  deriving DecidableEq, Repr

/-- Append one call to the trace. -/
def State.emit (s : State) (e : Event) : State :=
  { s with events := s.events ++ [e] }

/-! ## `union Datagram` -/

/-- The bits of a field, in place: `((1 << width) - 1) << offset`. -/
def BitField.mask (f : BitField) : Nat :=
  (2 ^ f.width - 1) <<< f.offset

/-- Reading a bit-field of the word `uint32`. -/
def BitField.get (f : BitField) (uint32 : Nat) : Nat :=
  (uint32 &&& f.mask) >>> f.offset

/-- Assigning `v` to a bit-field of the word `uint32`: the value is converted to the
field's width, the bits of the other fields are kept. -/
def BitField.set (f : BitField) (uint32 v : Nat) : Nat :=
  (uint32 ^^^ (uint32 &&& f.mask)) ||| ((v <<< f.offset) &&& f.mask)

/-- A `union Datagram`, held as its `uint32` member. -/
structure Datagram where
  uint32 : Nat
  deriving DecidableEq, Repr

/-- The four fields of a datagram, read through `fields`. -/
structure Fields where
  rw : Nat
  reg : Nat
  channel_address : Nat
  data : Nat
  deriving DecidableEq, Repr

/-- The assignment `d.fields.rw = v`. -/
def Datagram.setRw (H : Header) (d : Datagram) (v : Nat) : Datagram :=
  ⟨H.rw.set d.uint32 v⟩

/-- The assignment `d.fields.reg = v`. -/
def Datagram.setReg (H : Header) (d : Datagram) (v : Nat) : Datagram :=
  ⟨H.reg.set d.uint32 v⟩

/-- The assignment `d.fields.channel_address = v`. -/
def Datagram.setChannelAddress (H : Header) (d : Datagram) (v : Nat) : Datagram :=
  ⟨H.channel_address.set d.uint32 v⟩

/-- The assignment `d.fields.data = v` for an unsigned `v`. -/
def Datagram.setData (H : Header) (d : Datagram) (v : Nat) : Datagram :=
  ⟨H.data.set d.uint32 v⟩

/-- The assignment `d.fields.data = v` for a `long` `v`: the conversion to the unsigned
field is modulo `2 ^ width`. -/
def Datagram.setDataLong (H : Header) (d : Datagram) (v : Int) : Datagram :=
  d.setData H (v % 2 ^ H.data.width).toNat

/-- Reading `d.fields`. -/
def Datagram.fields (H : Header) (d : Datagram) : Fields :=
  { rw := H.rw.get d.uint32
    reg := H.reg.get d.uint32
    channel_address := H.channel_address.get d.uint32
    data := H.data.get d.uint32 }

/-! ## Bus primitives -/

/-- The call `SPI.transfer(byte_write)`: the transport's answer, as the `uint8_t` it is
stored in. -/
def spiTransfer (T : Transport) (byte_write : Nat) (s : State) : Nat × State :=
  let byte_read := T s.events byte_write % 256
  (byte_read, s.emit (Event.spiTransfer byte_write byte_read))

/-- Source function `csEnable`. -/
def csEnable (s : State) : State :=
  s.emit (Event.digitalWrite s.cs_pin_ Level.LOW)

/-- Source function `csDisable`. -/
def csDisable (s : State) : State :=
  s.emit (Event.digitalWrite s.cs_pin_ Level.HIGH)

/-- Source function `spiBeginTransaction`. -/
def spiBeginTransaction (s : State) : State :=
  csEnable (s.emit Event.spiBeginTransaction)

/-- Source function `spiEndTransaction`. -/
def spiEndTransaction (s : State) : State :=
  (csDisable s).emit Event.spiEndTransaction

/-- The loop of `writeMosiDatagramToChip`, with `n` iterations left: `i` runs through
`n - 1, …, 0`. -/
def writeLoop (T : Transport) (mosi_datagram : Datagram) : Nat → State → State
  | 0, s => s
  | i + 1, s =>
    let byte_write := (mosi_datagram.uint32 >>> (8 * i)) &&& 0xff
    writeLoop T mosi_datagram i (spiTransfer T byte_write s).2

/-- Source function `writeMosiDatagramToChip`. -/
def writeMosiDatagramToChip (H : Header) (T : Transport) (_chip_index : Int)
    (mosi_datagram : Datagram) (s : State) : State :=
  let s := spiBeginTransaction s
  let s := writeLoop T mosi_datagram H.DATAGRAM_SIZE s
  spiEndTransaction s

/-- The loop of `readMisoDatagramFromChip`, with `n` iterations left; the shifted byte is
a `uint32_t`. -/
def readLoop (T : Transport) (mosi_datagram : Datagram) :
    Nat → Datagram × State → Datagram × State
  | 0, r => r
  | i + 1, (miso_datagram, s) =>
    let byte_write := (mosi_datagram.uint32 >>> (8 * i)) &&& 0xff
    let r := spiTransfer T byte_write s
    let byte_read := r.1
    readLoop T mosi_datagram i
      (⟨miso_datagram.uint32 ||| ((byte_read <<< (8 * i)) % 2 ^ 32)⟩, r.2)

/-- Source function `readMisoDatagramFromChip`. -/
def readMisoDatagramFromChip (H : Header) (T : Transport) (_chip_index : Int)
    (s : State) : Datagram × State :=
  let mosi_datagram : Datagram := ⟨0⟩
  let mosi_datagram := mosi_datagram.setRw H H.RW_WRITE
  let mosi_datagram := mosi_datagram.setReg H H.REGISTER_CONTROL
  let mosi_datagram := mosi_datagram.setChannelAddress H H.CONTROL_ADDRESS_NOP
  let miso_datagram : Datagram := ⟨0⟩
  let s := spiBeginTransaction s
  let r := readLoop T mosi_datagram H.DATAGRAM_SIZE (miso_datagram, s)
  (r.1, spiEndTransaction r.2)

/-! ## Private helpers -/

/-- Source function `channelToChipIndex`; the result is a `uint8_t`. -/
def channelToChipIndex (H : Header) (channel : Nat) : Nat :=
  (channel / H.CHANNEL_COUNT_PER_CHIP) % 256

/-- Source function `channelToChannelAddress`; the result is a `uint8_t`.  The `switch`
has no `default:`; for a `chip_channel` above 3 the local is returned as it was declared,
uninitialised, which is rendered as 0 here. -/
def channelToChannelAddress (H : Header) (channel : Nat) : Nat :=
  let chip_channel := (channel % H.CHANNEL_COUNT_PER_CHIP) % 256
  match chip_channel with
  | 0 => H.CHANNEL_ADDRESS_A % 256
  | 1 => H.CHANNEL_ADDRESS_B % 256
  | 2 => H.CHANNEL_ADDRESS_C % 256
  | 3 => H.CHANNEL_ADDRESS_D % 256
  | _ => 0

/-- Source function `powerUpAllDacs`; `data` is a `uint16_t`. -/
def powerUpAllDacs (H : Header) (T : Transport) (s : State) : State :=
  let data := (H.POWER_CONTROL_DAC_A |||
               H.POWER_CONTROL_DAC_B |||
               H.POWER_CONTROL_DAC_C |||
               H.POWER_CONTROL_DAC_D |||
               H.POWER_CONTROL_REF) % 2 ^ 16
  let mosi_datagram : Datagram := ⟨0⟩
  let mosi_datagram := mosi_datagram.setRw H H.RW_WRITE
  let mosi_datagram := mosi_datagram.setReg H H.REGISTER_POWER_CONTROL
  let mosi_datagram := mosi_datagram.setChannelAddress H H.CHANNEL_ADDRESS_POWER_CONTROL
  let mosi_datagram := mosi_datagram.setData H data
  let chip_index := H.CHIP_INDEX_ALL
  writeMosiDatagramToChip H T chip_index mosi_datagram s

/-- The `switch (range)` of `setOutputRangeToChip`: the new `unipolar_` and `data`
(a `uint16_t`). -/
def rangeSwitch (H : Header) : Range → Bool × Nat
  | Range.UNIPOLAR_5V => (true, H.OUTPUT_RANGE_UNIPOLAR_5V % 2 ^ 16)
  | Range.UNIPOLAR_10V => (true, H.OUTPUT_RANGE_UNIPOLAR_10V % 2 ^ 16)
  | Range.UNIPOLAR_10V8 => (true, H.OUTPUT_RANGE_UNIPOLAR_10V8 % 2 ^ 16)
  | Range.BIPOLAR_5V => (false, H.OUTPUT_RANGE_BIPOLAR_5V % 2 ^ 16)
  | Range.BIPOLAR_10V => (false, H.OUTPUT_RANGE_BIPOLAR_10V % 2 ^ 16)
  | Range.BIPOLAR_10V8 => (false, H.OUTPUT_RANGE_BIPOLAR_10V8 % 2 ^ 16)
  | Range.unrecognised _ => (true, H.OUTPUT_RANGE_UNIPOLAR_5V % 2 ^ 16)

/-- Source function `setOutputRangeToChip`. -/
def setOutputRangeToChip (H : Header) (T : Transport) (chip_index : Int)
    (channel_address : Nat) (range : Range) (s : State) : State :=
  let s := { s with unipolar_ := (rangeSwitch H range).1 }
  let data := (rangeSwitch H range).2
  let mosi_datagram : Datagram := ⟨0⟩
  let mosi_datagram := mosi_datagram.setRw H H.RW_WRITE
  let mosi_datagram := mosi_datagram.setReg H H.REGISTER_OUTPUT_RANGE
  let mosi_datagram := mosi_datagram.setChannelAddress H channel_address
  let mosi_datagram := mosi_datagram.setData H data
  writeMosiDatagramToChip H T chip_index mosi_datagram s

/-- Source function `load`. -/
def load (H : Header) (T : Transport) (chip_index : Int) (s : State) : State :=
  let mosi_datagram : Datagram := ⟨0⟩
  let mosi_datagram := mosi_datagram.setRw H H.RW_WRITE
  let mosi_datagram := mosi_datagram.setReg H H.REGISTER_CONTROL
  let mosi_datagram := mosi_datagram.setChannelAddress H H.CONTROL_ADDRESS_LOAD
  writeMosiDatagramToChip H T chip_index mosi_datagram s

/-- Source function `analogWriteToChip`.  The shift `data << k` of the `long` is
`data * 2 ^ k`; only its low bits reach the payload field. -/
def analogWriteToChip (H : Header) (T : Transport) (chip_index : Int)
    (channel_address : Nat) (data : Int) (s : State) : State :=
  let mosi_datagram : Datagram := ⟨0⟩
  let mosi_datagram := mosi_datagram.setRw H H.RW_WRITE
  let mosi_datagram := mosi_datagram.setReg H H.REGISTER_DAC
  let mosi_datagram := mosi_datagram.setChannelAddress H channel_address
  let mosi_datagram :=
    match s.resolution_ with
    | Resolution.AD5754R => mosi_datagram.setDataLong H data
    | Resolution.AD5734R => mosi_datagram.setDataLong H (data * 2 ^ 2)
    | Resolution.AD5724R => mosi_datagram.setDataLong H (data * 2 ^ 4)
  let s := writeMosiDatagramToChip H T chip_index mosi_datagram s
  load H T chip_index s

/-- Source function `readPowerControlRegister`; the result is a `uint16_t`. -/
def readPowerControlRegister (H : Header) (T : Transport) (chip_index : Nat)
    (s : State) : Nat × State :=
  let mosi_datagram : Datagram := ⟨0⟩
  let mosi_datagram := mosi_datagram.setRw H H.RW_READ
  let mosi_datagram := mosi_datagram.setReg H H.REGISTER_POWER_CONTROL
  let mosi_datagram := mosi_datagram.setChannelAddress H H.CHANNEL_ADDRESS_POWER_CONTROL
  let s := writeMosiDatagramToChip H T chip_index mosi_datagram s
  let r := readMisoDatagramFromChip H T chip_index s
  ((r.1.fields H).data % 2 ^ 16, r.2)

/-! ## Public interface -/

/-- Source function `setup`. -/
def setup (H : Header) (T : Transport) (resolution : Resolution) (chip_count : Nat)
    (s : State) : State :=
  let s : State :=
    if H.CHIP_COUNT_MIN ≤ chip_count ∧ chip_count ≤ H.CHIP_COUNT_MAX then
      { s with chip_count_ := chip_count }
    else
      { s with chip_count_ := H.CHIP_COUNT_MIN }
  let s := { s with resolution_ := resolution }
  let s := { s with unipolar_ := true }
  let s := s.emit Event.spiBegin
  powerUpAllDacs H T s

/-- Source function `getChipCount`; the result is a `uint8_t`. -/
def getChipCount (s : State) : Nat :=
  s.chip_count_ % 256

/-- Source function `getChannelCount`. -/
def getChannelCount (H : Header) (s : State) : Nat :=
  s.chip_count_ * H.CHANNEL_COUNT_PER_CHIP

/-- Source function `setOutputRange`. -/
def setOutputRange (H : Header) (T : Transport) (channel : Nat) (range : Range)
    (s : State) : State :=
  let chip_index := channelToChipIndex H channel
  let channel_address := channelToChannelAddress H channel
  setOutputRangeToChip H T chip_index channel_address range s

/-- Source function `setOutputRangeAll`; both locals are `uint8_t`. -/
def setOutputRangeAll (H : Header) (T : Transport) (range : Range) (s : State) : State :=
  let chip_index := H.CHIP_INDEX_ALL % 256
  let channel_address := H.CHANNEL_ADDRESS_ALL % 256
  setOutputRangeToChip H T chip_index channel_address range s

/-- Source function `getMinDacValue`. -/
def getMinDacValue (s : State) : Int :=
  if s.unipolar_ then
    0
  else
    match s.resolution_ with
    | Resolution.AD5724R => -2048
    | Resolution.AD5734R => -8192
    | Resolution.AD5754R => -32768

/-- Source function `getMaxDacValue`. -/
def getMaxDacValue (s : State) : Int :=
  if s.unipolar_ then
    match s.resolution_ with
    | Resolution.AD5724R => 4095
    | Resolution.AD5734R => 16383
    | Resolution.AD5754R => 65536
  else
    match s.resolution_ with
    | Resolution.AD5724R => 2047
    | Resolution.AD5734R => 8191
    | Resolution.AD5754R => 32767

/-- Source function `analogWrite`. -/
def analogWrite (H : Header) (T : Transport) (channel : Nat) (value : Int)
    (s : State) : State :=
  let chip_index := channelToChipIndex H channel
  let channel_address := channelToChannelAddress H channel
  analogWriteToChip H T chip_index channel_address value s

/-- Source function `analogWriteAll`; both locals are `uint8_t`. -/
def analogWriteAll (H : Header) (T : Transport) (value : Int) (s : State) : State :=
  let chip_index := H.CHIP_INDEX_ALL % 256
  let channel_address := H.CHANNEL_ADDRESS_ALL % 256
  analogWriteToChip H T chip_index channel_address value s

/-- The conversion of `data & mask` to `bool`. -/
def maskedBit (data mask : Nat) : Bool :=
  decide (data &&& mask ≠ 0)

/-- Source function `channelPoweredUp`. -/
def channelPoweredUp (H : Header) (T : Transport) (channel : Nat) (s : State) :
    Bool × State :=
  let chip_index := channelToChipIndex H channel
  let channel_address := channelToChannelAddress H channel
  let r := readPowerControlRegister H T chip_index s
  let data := r.1
  let channel_powered_up :=
    if channel_address = H.CHANNEL_ADDRESS_A then maskedBit data H.POWER_CONTROL_DAC_A
    else if channel_address = H.CHANNEL_ADDRESS_B then maskedBit data H.POWER_CONTROL_DAC_B
    else if channel_address = H.CHANNEL_ADDRESS_C then maskedBit data H.POWER_CONTROL_DAC_C
    else if channel_address = H.CHANNEL_ADDRESS_D then maskedBit data H.POWER_CONTROL_DAC_D
    else false
  (channel_powered_up, r.2)

/-- Source function `referencePoweredUp`. -/
def referencePoweredUp (H : Header) (T : Transport) (chip_index : Nat) (s : State) :
    Bool × State :=
  let r := readPowerControlRegister H T chip_index s
  (maskedBit r.1 H.POWER_CONTROL_REF, r.2)

/-- Source function `thermalShutdown`. -/
def thermalShutdown (H : Header) (T : Transport) (chip_index : Nat) (s : State) :
    Bool × State :=
  let r := readPowerControlRegister H T chip_index s
  (maskedBit r.1 H.POWER_CONTROL_THERMAL_SHUTDOWN, r.2)

/-- Source function `channelOverCurrent`. -/
def channelOverCurrent (H : Header) (T : Transport) (channel : Nat) (s : State) :
    Bool × State :=
  let chip_index := channelToChipIndex H channel
  let channel_address := channelToChannelAddress H channel
  let r := readPowerControlRegister H T chip_index s
  let data := r.1
  let channel_over_current :=
    if channel_address = H.CHANNEL_ADDRESS_A then
      maskedBit data H.POWER_CONTROL_OVERCURRENT_A
    else if channel_address = H.CHANNEL_ADDRESS_B then
      maskedBit data H.POWER_CONTROL_OVERCURRENT_B
    else if channel_address = H.CHANNEL_ADDRESS_C then
      maskedBit data H.POWER_CONTROL_OVERCURRENT_C
    else if channel_address = H.CHANNEL_ADDRESS_D then
      maskedBit data H.POWER_CONTROL_OVERCURRENT_D
    else false
  (channel_over_current, r.2)

/-! ## Observing a trace -/

/-- The events a run added to the trace: those of `s'` after the first `|s.events|`. -/
def eventsSince (s s' : State) : List Event :=
  s'.events.drop s.events.length

/-- The bytes shifted out in a trace, in order. -/
def sentBytes : List Event → List Nat
  | [] => []
  | Event.spiTransfer byte_write _ :: es => byte_write :: sentBytes es
  | _ :: es => sentBytes es

/-- The bytes shifted in in a trace, in order. -/
def receivedBytes : List Event → List Nat
  | [] => []
  | Event.spiTransfer _ byte_read :: es => byte_read :: receivedBytes es
  | _ :: es => receivedBytes es

/-- Splitting a trace into bus transactions.  `cur` holds the bytes sent in the
transaction that is open, if one is; a transaction is counted when it is closed. -/
def transactionsFrom : Option (List Nat) → List Event → List (List Nat)
  | _, [] => []
  | _, Event.spiBeginTransaction :: es => transactionsFrom (some []) es
  | some bs, Event.spiTransfer byte_write _ :: es =>
    transactionsFrom (some (bs ++ [byte_write])) es
  | some bs, Event.spiEndTransaction :: es => bs :: transactionsFrom none es
  | cur, _ :: es => transactionsFrom cur es

/-- The bus transactions of a trace: for each `SPI.beginTransaction` …
`SPI.endTransaction` pair, the bytes shifted out in between, in order. -/
def transactions (es : List Event) : List (List Nat) :=
  transactionsFrom none es

/-- The bytes of the word `w` on a wire that carries `n` bytes, most significant first:
byte `k` is `(w >> 8 * (n - 1 - k)) & 0xff`. -/
def wireBytes (w : Nat) (n : Nat) : List Nat :=
  (List.range n).map fun k => (w >>> (8 * (n - 1 - k))) &&& 0xff

/-- The word spelled by a sequence of bytes, most significant first. -/
def wordOfBytes (bs : List Nat) : Nat :=
  bs.foldl (fun acc b => acc * 256 + b) 0

/-- Decoding the bytes of one transaction into the four fields. -/
def decode (H : Header) (bs : List Nat) : Fields :=
  (Datagram.mk (wordOfBytes bs)).fields H

/-- A transport that answers the `k`-th transfer made after the first `n` events of the
trace with `bs[k]` (and with 0 once `bs` is used up). -/
def replay (bs : List Nat) (n : Nat) : Transport :=
  fun es _ => bs.getD (sentBytes (es.drop n)).length 0

/-- The four field assignments with which the source builds a datagram from zero. -/
def pack (H : Header) (f : Fields) : Datagram :=
  let mosi_datagram : Datagram := ⟨0⟩
  let mosi_datagram := mosi_datagram.setRw H f.rw
  let mosi_datagram := mosi_datagram.setReg H f.reg
  let mosi_datagram := mosi_datagram.setChannelAddress H f.channel_address
  mosi_datagram.setData H f.data

/-! ## Auxiliary definitions for the proofs -/

/-- The events of a byte loop with `n` iterations left that starts after the trace `es`. -/
def loopEvents (T : Transport) (w : Nat) : Nat → List Event → List Event
  | 0, _ => []
  | i + 1, es =>
    let byte_write := (w >>> (8 * i)) &&& 0xff
    let e := Event.spiTransfer byte_write (T es byte_write % 256)
    e :: loopEvents T w i (es ++ [e])

/-- The events of one transaction on pin `cs` that starts after the trace `es`. -/
def txEvents (T : Transport) (cs w n : Nat) (es : List Event) : List Event :=
  [Event.spiBeginTransaction, Event.digitalWrite cs Level.LOW] ++
    loopEvents T w n (es ++ [Event.spiBeginTransaction, Event.digitalWrite cs Level.LOW]) ++
    [Event.digitalWrite cs Level.HIGH, Event.spiEndTransaction]

/-- The word that the read loop builds from the bytes it receives (first byte received
is the most significant). -/
def orBytes : List Nat → Nat
  | [] => 0
  | b :: bs => ((b <<< (8 * bs.length)) % 2 ^ 32) ||| orBytes bs

/-- The native width of a chip variant, in bits. -/
def nativeWidth : Resolution → Nat
  | Resolution.AD5724R => 12
  | Resolution.AD5734R => 14
  | Resolution.AD5754R => 16

/-- The datagram that `analogWriteToChip` builds for a resolution, address and value. -/
def dacDatagram (H : Header) (resolution : Resolution) (channel_address : Nat) (data : Int) :
    Datagram :=
  let mosi_datagram : Datagram := ⟨0⟩
  let mosi_datagram := mosi_datagram.setRw H H.RW_WRITE
  let mosi_datagram := mosi_datagram.setReg H H.REGISTER_DAC
  let mosi_datagram := mosi_datagram.setChannelAddress H channel_address
  match resolution with
  | Resolution.AD5754R => mosi_datagram.setDataLong H data
  | Resolution.AD5734R => mosi_datagram.setDataLong H (data * 2 ^ 2)
  | Resolution.AD5724R => mosi_datagram.setDataLong H (data * 2 ^ 4)

/-- The datagram that `powerUpAllDacs` builds. -/
def powerUpDatagram (H : Header) : Datagram :=
  ((((Datagram.mk 0).setRw H H.RW_WRITE).setReg H H.REGISTER_POWER_CONTROL).setChannelAddress H
    H.CHANNEL_ADDRESS_POWER_CONTROL).setData H
      ((H.POWER_CONTROL_DAC_A ||| H.POWER_CONTROL_DAC_B ||| H.POWER_CONTROL_DAC_C |||
        H.POWER_CONTROL_DAC_D ||| H.POWER_CONTROL_REF) % 2 ^ 16)

/-- The no-operation datagram that `readMisoDatagramFromChip` shifts out. -/
def nopDatagram (H : Header) : Datagram :=
  (((Datagram.mk 0).setRw H H.RW_WRITE).setReg H H.REGISTER_CONTROL).setChannelAddress H
    H.CONTROL_ADDRESS_NOP

/-- The datagram that `load` builds. -/
def loadDatagram (H : Header) : Datagram :=
  (((Datagram.mk 0).setRw H H.RW_WRITE).setReg H H.REGISTER_CONTROL).setChannelAddress H
    H.CONTROL_ADDRESS_LOAD

/-! ## What the theorems assume of `AD57X4R.h` -/

/-- Two bit-fields share no bit. -/
def BitField.Disjoint (f g : BitField) : Prop :=
  f.offset + f.width ≤ g.offset ∨ g.offset + g.width ≤ f.offset

/-- A bit-field lies within the low `n` bits. -/
def BitField.Within (f : BitField) (n : Nat) : Prop :=
  f.offset + f.width ≤ n

/-- The layout of `Datagram::Fields` is carried by the wire: the datagram has at most the
four bytes of `uint32`, every field lies in the bytes that are transferred, and (as for
the members of any `struct`) no two fields overlap. -/
def Header.FieldsOnWire (H : Header) : Prop :=
  H.DATAGRAM_SIZE ≤ 4 ∧
  H.rw.Within (8 * H.DATAGRAM_SIZE) ∧ H.reg.Within (8 * H.DATAGRAM_SIZE) ∧
  H.channel_address.Within (8 * H.DATAGRAM_SIZE) ∧ H.data.Within (8 * H.DATAGRAM_SIZE) ∧
  H.rw.Disjoint H.reg ∧ H.rw.Disjoint H.channel_address ∧ H.rw.Disjoint H.data ∧
  H.reg.Disjoint H.channel_address ∧ H.reg.Disjoint H.data ∧
  H.channel_address.Disjoint H.data

/-- The values that the specification states for the chip and channel counts of the
header: one to four chips, of four channels each. -/
def Header.AsSpecified (H : Header) : Prop :=
  H.CHIP_COUNT_MIN = 1 ∧ H.CHIP_COUNT_MAX = 4 ∧ H.CHANNEL_COUNT_PER_CHIP = 4

/-- The channel addresses fit the `uint8_t` they are returned in. -/
def Header.AddressesAreBytes (H : Header) : Prop :=
  H.CHANNEL_ADDRESS_A < 256 ∧ H.CHANNEL_ADDRESS_B < 256 ∧
  H.CHANNEL_ADDRESS_C < 256 ∧ H.CHANNEL_ADDRESS_D < 256

/-- The codes of the header fit the bit-field they are assigned to. -/
def Header.CodesFit (H : Header) : Prop :=
  H.RW_READ < 2 ^ H.rw.width ∧ H.RW_WRITE < 2 ^ H.rw.width ∧
  H.REGISTER_DAC < 2 ^ H.reg.width ∧ H.REGISTER_OUTPUT_RANGE < 2 ^ H.reg.width ∧
  H.REGISTER_POWER_CONTROL < 2 ^ H.reg.width ∧ H.REGISTER_CONTROL < 2 ^ H.reg.width ∧
  H.CHANNEL_ADDRESS_A < 2 ^ H.channel_address.width ∧
  H.CHANNEL_ADDRESS_B < 2 ^ H.channel_address.width ∧
  H.CHANNEL_ADDRESS_C < 2 ^ H.channel_address.width ∧
  H.CHANNEL_ADDRESS_D < 2 ^ H.channel_address.width ∧
  H.CHANNEL_ADDRESS_ALL < 2 ^ H.channel_address.width ∧
  H.CHANNEL_ADDRESS_POWER_CONTROL < 2 ^ H.channel_address.width ∧
  H.CONTROL_ADDRESS_NOP < 2 ^ H.channel_address.width ∧
  H.CONTROL_ADDRESS_LOAD < 2 ^ H.channel_address.width

/-- The power-control bits that `powerUpAllDacs` sets fit the `uint16_t` they are
collected in and the payload field. -/
def Header.PowerBitsFit (H : Header) : Prop :=
  H.POWER_CONTROL_DAC_A < 2 ^ min 16 H.data.width ∧
  H.POWER_CONTROL_DAC_B < 2 ^ min 16 H.data.width ∧
  H.POWER_CONTROL_DAC_C < 2 ^ min 16 H.data.width ∧
  H.POWER_CONTROL_DAC_D < 2 ^ min 16 H.data.width ∧
  H.POWER_CONTROL_REF < 2 ^ min 16 H.data.width

instance (f g : BitField) : Decidable (f.Disjoint g) := by
  unfold BitField.Disjoint; infer_instance

instance (f : BitField) (n : Nat) : Decidable (f.Within n) := by
  unfold BitField.Within; infer_instance

instance (H : Header) : Decidable H.FieldsOnWire := by
  unfold Header.FieldsOnWire; infer_instance

instance (H : Header) : Decidable H.AsSpecified := by
  unfold Header.AsSpecified; infer_instance

instance (H : Header) : Decidable H.AddressesAreBytes := by
  unfold Header.AddressesAreBytes; infer_instance

instance (H : Header) : Decidable H.CodesFit := by
  unfold Header.CodesFit; infer_instance

instance (H : Header) : Decidable H.PowerBitsFit := by
  unfold Header.PowerBitsFit; infer_instance

/-! ## A header to evaluate the model on -/

/-- A header for evaluating the model: the 24-bit input shift register of the
AD5724R / AD5734R / AD5754R (R/W in bit 23, the register in bits 21-19, the address in
bits 18-16, the data in bits 15-0) with the codes of its register tables. -/
def sampleHeader : Header where
  CHIP_COUNT_MIN := 1
  CHIP_COUNT_MAX := 4
  CHANNEL_COUNT_PER_CHIP := 4
  CHIP_INDEX_ALL := -1
  DATAGRAM_SIZE := 3
  rw := ⟨23, 1⟩
  reg := ⟨19, 3⟩
  channel_address := ⟨16, 3⟩
  data := ⟨0, 16⟩
  RW_READ := 1
  RW_WRITE := 0
  REGISTER_DAC := 0
  REGISTER_OUTPUT_RANGE := 1
  REGISTER_POWER_CONTROL := 2
  REGISTER_CONTROL := 3
  CHANNEL_ADDRESS_A := 0
  CHANNEL_ADDRESS_B := 1
  CHANNEL_ADDRESS_C := 2
  CHANNEL_ADDRESS_D := 3
  CHANNEL_ADDRESS_ALL := 4
  CHANNEL_ADDRESS_POWER_CONTROL := 0
  CONTROL_ADDRESS_NOP := 0
  CONTROL_ADDRESS_LOAD := 5
  OUTPUT_RANGE_UNIPOLAR_5V := 0
  OUTPUT_RANGE_UNIPOLAR_10V := 1
  OUTPUT_RANGE_UNIPOLAR_10V8 := 2
  OUTPUT_RANGE_BIPOLAR_5V := 3
  OUTPUT_RANGE_BIPOLAR_10V := 4
  OUTPUT_RANGE_BIPOLAR_10V8 := 5
  POWER_CONTROL_DAC_A := 1
  POWER_CONTROL_DAC_B := 2
  POWER_CONTROL_DAC_C := 4
  POWER_CONTROL_DAC_D := 8
  POWER_CONTROL_REF := 16
  POWER_CONTROL_THERMAL_SHUTDOWN := 32
  POWER_CONTROL_OVERCURRENT_A := 128
  POWER_CONTROL_OVERCURRENT_B := 256
  POWER_CONTROL_OVERCURRENT_C := 512
  POWER_CONTROL_OVERCURRENT_D := 1024

/-- A state to evaluate the model on: a fresh object on pin 10, nothing on the bus yet. -/
def sampleState : State where
  cs_pin_ := 10
  chip_count_ := 0
  resolution_ := Resolution.AD5724R
  unipolar_ := false
  events := []

/-- A transport to evaluate the model on: the data line is tied low. -/
def silent : Transport :=
  fun _ _ => 0


/-! ## Further observations and assumptions -/

/-- Splitting a trace into the bytes shifted in during each bus transaction; `cur` holds
the bytes received in the transaction that is open, if one is. -/
def receptionsFrom : Option (List Nat) → List Event → List (List Nat)
  | _, [] => []
  | _, Event.spiBeginTransaction :: es => receptionsFrom (some []) es
  | some bs, Event.spiTransfer _ byte_read :: es =>
    receptionsFrom (some (bs ++ [byte_read])) es
  | some bs, Event.spiEndTransaction :: es => bs :: receptionsFrom none es
  | cur, _ :: es => receptionsFrom cur es

/-- The bytes shifted in during each bus transaction of a trace, in order. -/
def receptions (es : List Event) : List (List Nat) :=
  receptionsFrom none es

/-- The code of the header that belongs to each of the six enumerated ranges, by name;
a value outside the enumeration has none. -/
def Range.code? (H : Header) : Range → Option Nat
  | Range.UNIPOLAR_5V => some H.OUTPUT_RANGE_UNIPOLAR_5V
  | Range.UNIPOLAR_10V => some H.OUTPUT_RANGE_UNIPOLAR_10V
  | Range.UNIPOLAR_10V8 => some H.OUTPUT_RANGE_UNIPOLAR_10V8
  | Range.BIPOLAR_5V => some H.OUTPUT_RANGE_BIPOLAR_5V
  | Range.BIPOLAR_10V => some H.OUTPUT_RANGE_BIPOLAR_10V
  | Range.BIPOLAR_10V8 => some H.OUTPUT_RANGE_BIPOLAR_10V8
  | Range.unrecognised _ => none

/-- The power-up bit of the address of channel `c`: `POWER_CONTROL_DAC_A`, `_B`, `_C` or
`_D` according as `c % 4` is 0, 1, 2 or 3. -/
def powerBitOf (H : Header) (c : Nat) : Nat :=
  if c % 4 = 0 then H.POWER_CONTROL_DAC_A
  else if c % 4 = 1 then H.POWER_CONTROL_DAC_B
  else if c % 4 = 2 then H.POWER_CONTROL_DAC_C
  else H.POWER_CONTROL_DAC_D

/-- The over-current bit of the address of channel `c`: `POWER_CONTROL_OVERCURRENT_A`,
`_B`, `_C` or `_D` according as `c % 4` is 0, 1, 2 or 3. -/
def overCurrentBitOf (H : Header) (c : Nat) : Nat :=
  if c % 4 = 0 then H.POWER_CONTROL_OVERCURRENT_A
  else if c % 4 = 1 then H.POWER_CONTROL_OVERCURRENT_B
  else if c % 4 = 2 then H.POWER_CONTROL_OVERCURRENT_C
  else H.POWER_CONTROL_OVERCURRENT_D

/-- The datagram that `readPowerControlRegister` builds for its request. -/
def readRequestDatagram (H : Header) : Datagram :=
  (((Datagram.mk 0).setRw H H.RW_READ).setReg H H.REGISTER_POWER_CONTROL).setChannelAddress H
    H.CHANNEL_ADDRESS_POWER_CONTROL

/-- The datagram that `setOutputRangeToChip` builds for an address and a range. -/
def rangeDatagram (H : Header) (channel_address : Nat) (range : Range) : Datagram :=
  ((((Datagram.mk 0).setRw H H.RW_WRITE).setReg H H.REGISTER_OUTPUT_RANGE).setChannelAddress H
    channel_address).setData H (rangeSwitch H range).2

/-- A transport on which the chip answers a register read issued from state `s` with the
16-bit value `d`: during the second transaction of the read it shifts out, most
significant byte first, the word whose data field is `d`. -/
def replyTransport (H : Header) (s : State) (d : Nat) : Transport :=
  replay (wireBytes (H.data.set 0 d) H.DATAGRAM_SIZE)
    (s.events.length + (H.DATAGRAM_SIZE + 4))

/-- Chip-select framing of a trace on pin `cs` with `n` bytes per datagram.  `sel` is
`none` while the chip is deselected and `some k` while it is selected and `k` bytes have
been shifted.  Selecting is allowed only while deselected, a transfer only while selected,
deselecting only after exactly `n` transfers, and the trace must end deselected. -/
def framedFrom (cs n : Nat) : Option Nat → List Event → Bool
  | sel, [] => sel.isNone
  | sel, Event.digitalWrite pin level :: es =>
    if pin = cs then
      match sel, level with
      | none, Level.LOW => framedFrom cs n (some 0) es
      | some k, Level.HIGH => decide (k = n) && framedFrom cs n none es
      | _, _ => false
    else framedFrom cs n sel es
  | sel, Event.spiTransfer _ _ :: es =>
    match sel with
    | some k => framedFrom cs n (some (k + 1)) es
    | none => false
  | sel, _ :: es => framedFrom cs n sel es

/-- A trace that starts deselected is framed by chip-select. -/
def framed (cs n : Nat) (es : List Event) : Bool :=
  framedFrom cs n none es

/-- The payload that `analogWrite` puts on the bus for a value: the data field decoded
from the bytes of the first transaction it adds. -/
def encodedPayload (H : Header) (T : Transport) (channel : Nat) (s : State) (value : Int) :
    Option Nat :=
  (((transactions (eventsSince s (analogWrite H T channel value s))).map (decode H)).head?).map
    fun d => d.data

/-- The four channel addresses are pairwise different, as the `case` labels of one
`switch` are. -/
def Header.AddressesDistinct (H : Header) : Prop :=
  H.CHANNEL_ADDRESS_A ≠ H.CHANNEL_ADDRESS_B ∧ H.CHANNEL_ADDRESS_A ≠ H.CHANNEL_ADDRESS_C ∧
  H.CHANNEL_ADDRESS_A ≠ H.CHANNEL_ADDRESS_D ∧ H.CHANNEL_ADDRESS_B ≠ H.CHANNEL_ADDRESS_C ∧
  H.CHANNEL_ADDRESS_B ≠ H.CHANNEL_ADDRESS_D ∧ H.CHANNEL_ADDRESS_C ≠ H.CHANNEL_ADDRESS_D

/-- The six output-range codes fit the `uint16_t` they are held in and the payload field. -/
def Header.RangeCodesFit (H : Header) : Prop :=
  H.OUTPUT_RANGE_UNIPOLAR_5V < 2 ^ min 16 H.data.width ∧
  H.OUTPUT_RANGE_UNIPOLAR_10V < 2 ^ min 16 H.data.width ∧
  H.OUTPUT_RANGE_UNIPOLAR_10V8 < 2 ^ min 16 H.data.width ∧
  H.OUTPUT_RANGE_BIPOLAR_5V < 2 ^ min 16 H.data.width ∧
  H.OUTPUT_RANGE_BIPOLAR_10V < 2 ^ min 16 H.data.width ∧
  H.OUTPUT_RANGE_BIPOLAR_10V8 < 2 ^ min 16 H.data.width

/-- The status masks of the power-control register. -/
def Header.statusBits (H : Header) : List Nat :=
  [H.POWER_CONTROL_DAC_A, H.POWER_CONTROL_DAC_B, H.POWER_CONTROL_DAC_C,
   H.POWER_CONTROL_DAC_D, H.POWER_CONTROL_REF, H.POWER_CONTROL_THERMAL_SHUTDOWN,
   H.POWER_CONTROL_OVERCURRENT_A, H.POWER_CONTROL_OVERCURRENT_B,
   H.POWER_CONTROL_OVERCURRENT_C, H.POWER_CONTROL_OVERCURRENT_D]

/-- The status masks are non-zero and no two of them share a bit. -/
def Header.StatusBitsSeparate (H : Header) : Prop :=
  (∀ m ∈ H.statusBits, m ≠ 0) ∧ H.statusBits.Pairwise (fun a b => a &&& b = 0)

instance (H : Header) : Decidable H.AddressesDistinct := by
  unfold Header.AddressesDistinct; infer_instance

instance (H : Header) : Decidable H.RangeCodesFit := by
  unfold Header.RangeCodesFit; infer_instance

instance (H : Header) : Decidable H.StatusBitsSeparate := by
  unfold Header.StatusBitsSeparate; infer_instance

/-! ## Bit-field lemmas -/

theorem BitField.testBit_mask (f : BitField) (j : Nat) :
    f.mask.testBit j = (decide (f.offset ≤ j) && decide (j < f.offset + f.width)) := by
  unfold BitField.mask
  rw [Nat.testBit_shiftLeft, Nat.testBit_two_pow_sub_one]
  by_cases h : f.offset ≤ j <;> simp [h]
  omega

theorem BitField.testBit_get (f : BitField) (w i : Nat) :
    (f.get w).testBit i = (decide (i < f.width) && w.testBit (f.offset + i)) := by
  unfold BitField.get
  rw [Nat.testBit_shiftRight, Nat.testBit_and, BitField.testBit_mask]
  by_cases h : i < f.width <;> simp [h]

theorem BitField.testBit_set (f : BitField) (w v j : Nat) :
    (f.set w v).testBit j =
      if f.offset ≤ j ∧ j < f.offset + f.width then v.testBit (j - f.offset)
      else w.testBit j := by
  unfold BitField.set
  rw [Nat.testBit_or, Nat.testBit_xor, Nat.testBit_and, Nat.testBit_and,
    Nat.testBit_shiftLeft, BitField.testBit_mask]
  by_cases h1 : f.offset ≤ j <;> by_cases h2 : j < f.offset + f.width <;> simp [h1, h2]

theorem BitField.get_eq_mod (f : BitField) (w : Nat) :
    f.get w = (w >>> f.offset) % 2 ^ f.width := by
  apply Nat.eq_of_testBit_eq
  intro i
  rw [BitField.testBit_get, Nat.testBit_mod_two_pow, Nat.testBit_shiftRight]

theorem BitField.get_set_same (f : BitField) (w v : Nat) :
    f.get (f.set w v) = v % 2 ^ f.width := by
  apply Nat.eq_of_testBit_eq
  intro i
  rw [BitField.testBit_get, BitField.testBit_set, Nat.testBit_mod_two_pow]
  by_cases h : i < f.width <;> simp [h]

theorem BitField.get_set_of_disjoint (f g : BitField) (h : f.Disjoint g) (w v : Nat) :
    g.get (f.set w v) = g.get w := by
  apply Nat.eq_of_testBit_eq
  intro i
  rw [BitField.testBit_get, BitField.testBit_get, BitField.testBit_set]
  by_cases hi : i < g.width
  · have : ¬ (f.offset ≤ g.offset + i ∧ g.offset + i < f.offset + f.width) := by
      unfold BitField.Disjoint at h; omega
    simp [hi, this]
  · simp [hi]

theorem BitField.get_zero (f : BitField) : f.get 0 = 0 := by
  simp [BitField.get]

theorem BitField.get_mod_of_within (f : BitField) (n : Nat) (h : f.Within n) (w : Nat) :
    f.get (w % 2 ^ n) = f.get w := by
  apply Nat.eq_of_testBit_eq
  intro i
  rw [BitField.testBit_get, BitField.testBit_get, Nat.testBit_mod_two_pow]
  by_cases hi : i < f.width
  · have : f.offset + i < n := by unfold BitField.Within at h; omega
    simp [hi, this]
  · simp [hi]


theorem wireBytes_succ (w n : Nat) :
    wireBytes w (n + 1) = ((w >>> (8 * n)) &&& 0xff) :: wireBytes w n := by
  unfold wireBytes
  rw [List.range_succ_eq_map, List.map_cons, List.map_map]
  congr 1
  apply List.map_congr_left
  intro k _
  simp only [Function.comp]
  congr 3
  omega

theorem wireBytes_length (w n : Nat) : (wireBytes w n).length = n := by
  simp [wireBytes]

theorem writeLoop_eq (T : Transport) (d : Datagram) (n : Nat) (s : State) :
    writeLoop T d n s = { s with events := s.events ++ loopEvents T d.uint32 n s.events } := by
  induction n generalizing s with
  | zero => simp [writeLoop, loopEvents]
  | succ i ih =>
    rw [writeLoop, ih]
    simp [spiTransfer, State.emit, loopEvents]

theorem readLoop_snd (T : Transport) (d : Datagram) (n : Nat) (m : Datagram) (s : State) :
    (readLoop T d n (m, s)).2 = writeLoop T d n s := by
  induction n generalizing m s with
  | zero => rfl
  | succ i ih => rw [readLoop, ih, writeLoop]

theorem loopEvents_length (T : Transport) (w n : Nat) (es : List Event) :
    (loopEvents T w n es).length = n := by
  induction n generalizing es with
  | zero => rfl
  | succ i ih => simp [loopEvents, ih]

theorem sentBytes_loopEvents (T : Transport) (w n : Nat) (es : List Event) :
    sentBytes (loopEvents T w n es) = wireBytes w n := by
  induction n generalizing es with
  | zero => rfl
  | succ i ih => simp [loopEvents, sentBytes, wireBytes_succ, ih]

theorem receivedBytes_length (T : Transport) (w n : Nat) (es : List Event) :
    (receivedBytes (loopEvents T w n es)).length = n := by
  induction n generalizing es with
  | zero => rfl
  | succ i ih => simp [loopEvents, receivedBytes, ih]

theorem readLoop_fst (T : Transport) (d : Datagram) (n : Nat) (m : Datagram) (s : State) :
    (readLoop T d n (m, s)).1.uint32 =
      m.uint32 ||| orBytes (receivedBytes (loopEvents T d.uint32 n s.events)) := by
  induction n generalizing m s with
  | zero => simp [readLoop, loopEvents, receivedBytes, orBytes]
  | succ i ih =>
    rw [readLoop, ih]
    simp [spiTransfer, State.emit, loopEvents, receivedBytes, orBytes,
      receivedBytes_length, Nat.lor_assoc]

theorem transactionsFrom_loopEvents (T : Transport) (w n : Nat) (es rest : List Event)
    (acc : List Nat) :
    transactionsFrom (some acc) (loopEvents T w n es ++ rest) =
      transactionsFrom (some (acc ++ wireBytes w n)) rest := by
  induction n generalizing es acc with
  | zero => simp [loopEvents, wireBytes]
  | succ i ih =>
    simp [loopEvents, transactionsFrom, wireBytes_succ, ih]

theorem transactionsFrom_txEvents (T : Transport) (cs w n : Nat) (es rest : List Event)
    (cur : Option (List Nat)) :
    transactionsFrom cur (txEvents T cs w n es ++ rest) =
      wireBytes w n :: transactionsFrom none rest := by
  unfold txEvents
  simp only [List.append_assoc, List.cons_append, List.nil_append]
  simp [transactionsFrom, transactionsFrom_loopEvents]

theorem writeMosiDatagramToChip_eq (H : Header) (T : Transport) (ci : Int) (d : Datagram)
    (s : State) :
    writeMosiDatagramToChip H T ci d s =
      { s with events := s.events ++ txEvents T s.cs_pin_ d.uint32 H.DATAGRAM_SIZE s.events } := by
  simp [writeMosiDatagramToChip, spiBeginTransaction, spiEndTransaction, csEnable, csDisable,
    State.emit, writeLoop_eq, txEvents]

theorem readMisoDatagramFromChip_snd (H : Header) (T : Transport) (ci : Int) (s : State) :
    (readMisoDatagramFromChip H T ci s).2 =
      writeMosiDatagramToChip H T ci (nopDatagram H) s := by
  simp [readMisoDatagramFromChip, writeMosiDatagramToChip, readLoop_snd, nopDatagram]

theorem eventsSince_append (s : State) (es : List Event) :
    eventsSince s { s with events := s.events ++ es } = es := by
  simp [eventsSince]


theorem foldl_bytes (bs : List Nat) (acc : Nat) :
    bs.foldl (fun a b => a * 256 + b) acc =
      acc * 256 ^ bs.length + bs.foldl (fun a b => a * 256 + b) 0 := by
  induction bs generalizing acc with
  | nil => simp
  | cons b bs ih =>
    simp only [List.foldl_cons, List.length_cons]
    rw [ih, ih (0 * 256 + b)]
    ring

theorem wordOfBytes_cons (b : Nat) (bs : List Nat) :
    wordOfBytes (b :: bs) = b * 256 ^ bs.length + wordOfBytes bs := by
  unfold wordOfBytes
  rw [List.foldl_cons, foldl_bytes]
  simp

theorem wordOfBytes_lt (bs : List Nat) (h : ∀ b ∈ bs, b < 256) :
    wordOfBytes bs < 256 ^ bs.length := by
  induction bs with
  | nil => simp [wordOfBytes]
  | cons b bs ih =>
    rw [wordOfBytes_cons, List.length_cons, pow_succ]
    have h1 := ih (fun x hx => h x (List.mem_cons_of_mem _ hx))
    have h2 := h b (List.mem_cons_self _ _)
    nlinarith

theorem wordOfBytes_wireBytes (w n : Nat) :
    wordOfBytes (wireBytes w n) = w % 2 ^ (8 * n) := by
  induction n with
  | zero => simp [wireBytes, wordOfBytes, Nat.mod_one]
  | succ i ih =>
    rw [wireBytes_succ, wordOfBytes_cons, ih, wireBytes_length]
    have h256 : (256 : Nat) ^ i = 2 ^ (8 * i) := by
      rw [show (256 : Nat) = 2 ^ 8 by norm_num, ← pow_mul]
    have hand : (w >>> (8 * i)) &&& 0xff = w / 2 ^ (8 * i) % 256 := by
      rw [Nat.shiftRight_eq_div_pow]
      exact Nat.and_pow_two_sub_one_eq_mod _ 8
    rw [hand, h256, show 8 * (i + 1) = 8 * i + 8 by ring, pow_add, Nat.mod_mul]
    norm_num
    ring

theorem orBytes_eq_wordOfBytes (bs : List Nat) (hb : ∀ b ∈ bs, b < 256)
    (hl : bs.length ≤ 4) : orBytes bs = wordOfBytes bs := by
  induction bs with
  | nil => simp [orBytes, wordOfBytes]
  | cons b bs ih =>
    have hb0 := hb b (List.mem_cons_self _ _)
    have hbs : ∀ x ∈ bs, x < 256 := fun x hx => hb x (List.mem_cons_of_mem _ hx)
    have hl' : bs.length ≤ 3 := by simpa using hl
    rw [orBytes, wordOfBytes_cons, ih hbs (by omega)]
    have h256 : (256 : Nat) ^ bs.length = 2 ^ (8 * bs.length) := by
      rw [show (256 : Nat) = 2 ^ 8 by norm_num, ← pow_mul]
    have hlt : wordOfBytes bs < 2 ^ (8 * bs.length) := by
      rw [← h256]; exact wordOfBytes_lt bs hbs
    have hsmall : b <<< (8 * bs.length) < 2 ^ 32 := by
      rw [Nat.shiftLeft_eq]
      calc b * 2 ^ (8 * bs.length) < 2 ^ 8 * 2 ^ (8 * bs.length) := by
            apply Nat.mul_lt_mul_of_pos_right hb0 (by positivity)
        _ = 2 ^ (8 + 8 * bs.length) := by rw [pow_add]
        _ ≤ 2 ^ 32 := Nat.pow_le_pow_right (by norm_num) (by omega)
    rw [Nat.mod_eq_of_lt hsmall, Nat.shiftLeft_eq, h256, Nat.mul_comm b,
      Nat.mul_add_lt_is_or hlt]


theorem BitField.Disjoint.symm {f g : BitField} (h : f.Disjoint g) : g.Disjoint f :=
  Or.symm h

theorem mem_wireBytes_lt (w n b : Nat) (h : b ∈ wireBytes w n) : b < 256 := by
  unfold wireBytes at h
  obtain ⟨k, -, rfl⟩ := List.mem_map.1 h
  exact Nat.lt_of_le_of_lt Nat.and_le_right (by norm_num)

theorem fields_mod_of_fieldsOnWire (H : Header) (hL : H.FieldsOnWire) (w : Nat) :
    (Datagram.mk (w % 2 ^ (8 * H.DATAGRAM_SIZE))).fields H = (Datagram.mk w).fields H := by
  obtain ⟨-, h1, h2, h3, h4, -⟩ := hL
  simp [Datagram.fields, BitField.get_mod_of_within _ _ h1, BitField.get_mod_of_within _ _ h2,
    BitField.get_mod_of_within _ _ h3, BitField.get_mod_of_within _ _ h4]

theorem decode_wireBytes (H : Header) (hL : H.FieldsOnWire) (d : Datagram) :
    decode H (wireBytes d.uint32 H.DATAGRAM_SIZE) = d.fields H := by
  unfold decode
  rw [wordOfBytes_wireBytes, fields_mod_of_fieldsOnWire H hL]

theorem fields_setData (H : Header) (hL : H.FieldsOnWire) (d : Datagram) (v : Nat) :
    (d.setData H v).fields H = { d.fields H with data := v % 2 ^ H.data.width } := by
  obtain ⟨-, -, -, -, -, -, -, h3, -, h5, h6⟩ := hL
  simp [Datagram.fields, Datagram.setData, BitField.get_set_same,
    BitField.get_set_of_disjoint _ _ h3.symm, BitField.get_set_of_disjoint _ _ h5.symm,
    BitField.get_set_of_disjoint _ _ h6.symm]

theorem fields_header (H : Header) (hL : H.FieldsOnWire) (a b c : Nat) :
    ((((Datagram.mk 0).setRw H a).setReg H b).setChannelAddress H c).fields H =
      { rw := a % 2 ^ H.rw.width, reg := b % 2 ^ H.reg.width,
        channel_address := c % 2 ^ H.channel_address.width, data := 0 } := by
  obtain ⟨-, -, -, -, -, h1, h2, h3, h4, h5, h6⟩ := hL
  simp [Datagram.fields, Datagram.setRw, Datagram.setReg, Datagram.setChannelAddress,
    BitField.get_set_same, BitField.get_set_of_disjoint _ _ h1,
    BitField.get_set_of_disjoint _ _ h2, BitField.get_set_of_disjoint _ _ h3,
    BitField.get_set_of_disjoint _ _ h4, BitField.get_set_of_disjoint _ _ h5,
    BitField.get_set_of_disjoint _ _ h6, BitField.get_set_of_disjoint _ _ h4.symm,
    BitField.get_set_of_disjoint _ _ h1.symm, BitField.get_set_of_disjoint _ _ h2.symm,
    BitField.get_zero]

theorem fields_pack (H : Header) (hL : H.FieldsOnWire) (f : Fields) :
    (pack H f).fields H =
      { rw := f.rw % 2 ^ H.rw.width, reg := f.reg % 2 ^ H.reg.width,
        channel_address := f.channel_address % 2 ^ H.channel_address.width,
        data := f.data % 2 ^ H.data.width } := by
  unfold pack
  simp only [fields_setData H hL, fields_header H hL]

theorem sentBytes_append (xs ys : List Event) :
    sentBytes (xs ++ ys) = sentBytes xs ++ sentBytes ys := by
  induction xs with
  | nil => rfl
  | cons e xs ih => cases e <;> simp [sentBytes, ih]

theorem receivedBytes_replay (bs : List Nat) (n0 w : Nat) (hb : ∀ b ∈ bs, b < 256)
    (n : Nat) (es : List Event) (hn : n ≤ bs.length) (h0 : n0 ≤ es.length)
    (hc : (sentBytes (es.drop n0)).length = bs.length - n) :
    receivedBytes (loopEvents (replay bs n0) w n es) = bs.drop (bs.length - n) := by
  induction n generalizing es with
  | zero => simp [loopEvents, receivedBytes]
  | succ i ih =>
    have hlt : bs.length - (i + 1) < bs.length := by omega
    have hget : replay bs n0 es ((w >>> (8 * i)) &&& 0xff) = bs[bs.length - (i + 1)] := by
      simp [replay, hc, List.getD_eq_getElem?_getD, List.getElem?_eq_getElem hlt]
    have hmod : bs[bs.length - (i + 1)] % 256 = bs[bs.length - (i + 1)] :=
      Nat.mod_eq_of_lt (hb _ (List.getElem_mem _))
    simp only [loopEvents, receivedBytes, hget, hmod]
    rw [ih _ (by omega) (by simp; omega)
      (by rw [List.drop_append_of_le_length h0, sentBytes_append, List.length_append, hc]
          simp [sentBytes]; omega)]
    rw [show bs.length - i = (bs.length - (i + 1)) + 1 by omega]
    exact (List.drop_eq_getElem_cons hlt).symm


theorem eventsSince_of_events_eq {s s' : State} {es : List Event}
    (h : s'.events = s.events ++ es) : eventsSince s s' = es := by
  simp [eventsSince, h]

theorem transactions_txEvents (T : Transport) (cs w n : Nat) (es rest : List Event) :
    transactions (txEvents T cs w n es ++ rest) = wireBytes w n :: transactions rest :=
  transactionsFrom_txEvents T cs w n es rest none

theorem writeMosiDatagramToChip_events (H : Header) (T : Transport) (ci : Int) (d : Datagram)
    (s : State) :
    (writeMosiDatagramToChip H T ci d s).events =
      s.events ++ txEvents T s.cs_pin_ d.uint32 H.DATAGRAM_SIZE s.events := by
  rw [writeMosiDatagramToChip_eq]

theorem sentBytes_txEvents (T : Transport) (cs w n : Nat) (es : List Event) :
    sentBytes (txEvents T cs w n es) = wireBytes w n := by
  simp [txEvents, sentBytes_append, sentBytes, sentBytes_loopEvents]

/-! ## The claims -/

/-- Claim C1 (round trip).  Take any fields `f` that fit their widths, build the command
word with the four field assignments (`pack`), let `writeMosiDatagramToChip` shift it out,
and let `readMisoDatagramFromChip` run on a bus that shifts those very bytes back in
(`replay`).  The datagram it assembles has exactly the fields `f`.  The header is assumed
to keep its four bit-fields inside the bytes that are transferred. -/
theorem codec_roundtrip (H : Header) (hL : H.FieldsOnWire) (f : Fields)
    (hrw : f.rw < 2 ^ H.rw.width) (hreg : f.reg < 2 ^ H.reg.width)
    (hca : f.channel_address < 2 ^ H.channel_address.width)
    (hdata : f.data < 2 ^ H.data.width)
    (T : Transport) (s : State) (chip_index chip_index' : Int) :
    (readMisoDatagramFromChip H
        (replay (sentBytes (eventsSince s (writeMosiDatagramToChip H T chip_index (pack H f) s)))
          (writeMosiDatagramToChip H T chip_index (pack H f) s).events.length)
        chip_index' (writeMosiDatagramToChip H T chip_index (pack H f) s)).1.fields H = f := by
  have hsent : sentBytes (eventsSince s (writeMosiDatagramToChip H T chip_index (pack H f) s))
      = wireBytes (pack H f).uint32 H.DATAGRAM_SIZE := by
    rw [eventsSince_of_events_eq (writeMosiDatagramToChip_events ..), sentBytes_txEvents]
  rw [hsent]
  generalize writeMosiDatagramToChip H T chip_index (pack H f) s = s1
  have hword : (readMisoDatagramFromChip H
      (replay (wireBytes (pack H f).uint32 H.DATAGRAM_SIZE) s1.events.length)
      chip_index' s1).1.uint32 = (pack H f).uint32 % 2 ^ (8 * H.DATAGRAM_SIZE) := by
    simp only [readMisoDatagramFromChip, readLoop_fst, Nat.zero_or]
    rw [receivedBytes_replay _ _ _ (mem_wireBytes_lt _ _) _ _
      (by rw [wireBytes_length]) (by simp [spiBeginTransaction, csEnable, State.emit])
      (by simp [spiBeginTransaction, csEnable, State.emit, sentBytes, wireBytes_length])]
    rw [wireBytes_length, Nat.sub_self, List.drop_zero,
      orBytes_eq_wordOfBytes _ (mem_wireBytes_lt _ _) (by rw [wireBytes_length]; exact hL.1),
      wordOfBytes_wireBytes]
  have hd : (readMisoDatagramFromChip H
      (replay (wireBytes (pack H f).uint32 H.DATAGRAM_SIZE) s1.events.length)
      chip_index' s1).1 = ⟨(pack H f).uint32 % 2 ^ (8 * H.DATAGRAM_SIZE)⟩ := by
    rw [← hword]
  rw [hd, fields_mod_of_fieldsOnWire H hL, fields_pack H hL,
    Nat.mod_eq_of_lt hrw, Nat.mod_eq_of_lt hreg, Nat.mod_eq_of_lt hca, Nat.mod_eq_of_lt hdata]

theorem codec_roundtrip_witness :
    sampleHeader.FieldsOnWire ∧
    (readMisoDatagramFromChip sampleHeader
        (replay (sentBytes (eventsSince sampleState
            (writeMosiDatagramToChip sampleHeader silent 0
              (pack sampleHeader ⟨1, 2, 3, 0xabcd⟩) sampleState)))
          (writeMosiDatagramToChip sampleHeader silent 0
            (pack sampleHeader ⟨1, 2, 3, 0xabcd⟩) sampleState).events.length)
        0 (writeMosiDatagramToChip sampleHeader silent 0
            (pack sampleHeader ⟨1, 2, 3, 0xabcd⟩) sampleState)).1.fields sampleHeader
      = ⟨1, 2, 3, 0xabcd⟩ :=
  ⟨by decide, codec_roundtrip sampleHeader (by decide) ⟨1, 2, 3, 0xabcd⟩
    (by decide) (by decide) (by decide) (by decide) silent sampleState 0 0⟩

/-- Claim C2 (wire order).  For every command word, `writeMosiDatagramToChip` shifts out
exactly `DATAGRAM_SIZE` bytes, in one transaction, and byte `k` is
`(w >> 8 * (DATAGRAM_SIZE - 1 - k)) & 0xff`: the most significant byte goes first. -/
theorem wire_order (H : Header) (T : Transport) (chip_index : Int) (mosi_datagram : Datagram)
    (s : State) :
    sentBytes (eventsSince s (writeMosiDatagramToChip H T chip_index mosi_datagram s)) =
        (List.range H.DATAGRAM_SIZE).map
          (fun k => (mosi_datagram.uint32 >>> (8 * (H.DATAGRAM_SIZE - 1 - k))) &&& 0xff) ∧
      (sentBytes (eventsSince s
        (writeMosiDatagramToChip H T chip_index mosi_datagram s))).length = H.DATAGRAM_SIZE ∧
      transactions (eventsSince s (writeMosiDatagramToChip H T chip_index mosi_datagram s)) =
        [(List.range H.DATAGRAM_SIZE).map
          (fun k => (mosi_datagram.uint32 >>> (8 * (H.DATAGRAM_SIZE - 1 - k))) &&& 0xff)] := by
  rw [eventsSince_of_events_eq (writeMosiDatagramToChip_events ..), sentBytes_txEvents]
  refine ⟨rfl, wireBytes_length _ _, ?_⟩
  have h := transactions_txEvents T s.cs_pin_ mosi_datagram.uint32 H.DATAGRAM_SIZE s.events []
  rw [List.append_nil] at h
  rw [h]
  rfl


theorem channelToChannelAddress_eq (H : Header) (hS : H.AsSpecified)
    (hA : H.AddressesAreBytes) (c : Nat) :
    channelToChannelAddress H c =
      if c % 4 = 0 then H.CHANNEL_ADDRESS_A
      else if c % 4 = 1 then H.CHANNEL_ADDRESS_B
      else if c % 4 = 2 then H.CHANNEL_ADDRESS_C
      else H.CHANNEL_ADDRESS_D := by
  obtain ⟨-, -, h4⟩ := hS
  obtain ⟨hA, hB, hC, hD⟩ := hA
  unfold channelToChannelAddress
  rw [h4]
  have hlt : c % 4 < 4 := Nat.mod_lt _ (by norm_num)
  have hm : c % 4 % 256 = c % 4 := Nat.mod_eq_of_lt (by omega)
  simp only [hm, Nat.mod_eq_of_lt hA, Nat.mod_eq_of_lt hB, Nat.mod_eq_of_lt hC,
    Nat.mod_eq_of_lt hD]
  generalize c % 4 = r at hlt
  interval_cases r <;> simp

/-- Claim C3 (channel mapping).  With four channels per chip, for a chip count in 1..4
and a channel `c` below `chip_count * 4`: `channelToChipIndex c = c / 4`, which is below
the chip count, and `channelToChannelAddress c` is `CHANNEL_ADDRESS_A`, `_B`, `_C` or `_D`
according as `c % 4` is 0, 1, 2 or 3.  In particular channel 0 maps to (0, A), 3 to (0, D),
4 to (1, A) and 15 to (3, D). -/
theorem channel_mapping (H : Header) (hS : H.AsSpecified) (hA : H.AddressesAreBytes)
    (chip_count c : Nat) (hmin : 1 ≤ chip_count) (hmax : chip_count ≤ 4)
    (hc : c < chip_count * 4) :
    channelToChipIndex H c = c / 4 ∧ c / 4 < chip_count ∧
      channelToChannelAddress H c =
        (if c % 4 = 0 then H.CHANNEL_ADDRESS_A
         else if c % 4 = 1 then H.CHANNEL_ADDRESS_B
         else if c % 4 = 2 then H.CHANNEL_ADDRESS_C
         else H.CHANNEL_ADDRESS_D) ∧
      (channelToChipIndex H 0, channelToChannelAddress H 0) = (0, H.CHANNEL_ADDRESS_A) ∧
      (channelToChipIndex H 3, channelToChannelAddress H 3) = (0, H.CHANNEL_ADDRESS_D) ∧
      (channelToChipIndex H 4, channelToChannelAddress H 4) = (1, H.CHANNEL_ADDRESS_A) ∧
      (channelToChipIndex H 15, channelToChannelAddress H 15) = (3, H.CHANNEL_ADDRESS_D) := by
  have h4 : H.CHANNEL_COUNT_PER_CHIP = 4 := hS.2.2
  have hidx : ∀ n, n < 16 → channelToChipIndex H n = n / 4 := by
    intro n hn
    unfold channelToChipIndex
    rw [h4]
    omega
  refine ⟨hidx c (by omega), by omega, channelToChannelAddress_eq H hS hA c, ?_, ?_, ?_, ?_⟩ <;>
    (rw [hidx _ (by norm_num), channelToChannelAddress_eq H hS hA]; norm_num)

theorem channel_mapping_witness :
    sampleHeader.AsSpecified ∧ sampleHeader.AddressesAreBytes ∧
    channelToChipIndex sampleHeader 6 = 6 / 4 ∧ 6 / 4 < 2 ∧
      channelToChannelAddress sampleHeader 6 = sampleHeader.CHANNEL_ADDRESS_C :=
  have h := channel_mapping sampleHeader (by decide) (by decide) 2 6 (by decide) (by decide)
    (by decide)
  ⟨by decide, by decide, h.1, h.2.1, h.2.2.1⟩

theorem powerBits_lt (H : Header) (hP : H.PowerBitsFit) :
    H.POWER_CONTROL_DAC_A ||| H.POWER_CONTROL_DAC_B ||| H.POWER_CONTROL_DAC_C |||
      H.POWER_CONTROL_DAC_D ||| H.POWER_CONTROL_REF < 2 ^ min 16 H.data.width := by
  obtain ⟨h1, h2, h3, h4, h5⟩ := hP
  exact Nat.or_lt_two_pow (Nat.or_lt_two_pow (Nat.or_lt_two_pow (Nat.or_lt_two_pow h1 h2) h3) h4) h5

theorem setup_events (H : Header) (T : Transport) (resolution : Resolution) (chip_count : Nat)
    (s : State) :
    (setup H T resolution chip_count s).events =
      s.events ++ (Event.spiBegin ::
        txEvents T s.cs_pin_ (powerUpDatagram H).uint32 H.DATAGRAM_SIZE
          (s.events ++ [Event.spiBegin])) := by
  unfold setup powerUpAllDacs powerUpDatagram
  simp only [writeMosiDatagramToChip_events]
  split <;> simp [State.emit]

/-- Claim C5 (power-up sequence).  For every resolution and every chip-count argument,
`setup` adds exactly one transaction to the bus, and its bytes decode to direction
`RW_WRITE`, register `REGISTER_POWER_CONTROL`, address `CHANNEL_ADDRESS_POWER_CONTROL` and
payload `DAC_A | DAC_B | DAC_C | DAC_D | REF`. -/
theorem power_up_sequence (H : Header) (hL : H.FieldsOnWire) (hC : H.CodesFit)
    (hP : H.PowerBitsFit) (T : Transport) (resolution : Resolution) (chip_count : Nat)
    (s : State) :
    (transactions (eventsSince s (setup H T resolution chip_count s))).map (decode H) =
      [{ rw := H.RW_WRITE
         reg := H.REGISTER_POWER_CONTROL
         channel_address := H.CHANNEL_ADDRESS_POWER_CONTROL
         data := H.POWER_CONTROL_DAC_A ||| H.POWER_CONTROL_DAC_B ||| H.POWER_CONTROL_DAC_C |||
           H.POWER_CONTROL_DAC_D ||| H.POWER_CONTROL_REF }] := by
  rw [eventsSince_of_events_eq (setup_events H T resolution chip_count s)]
  have h := transactions_txEvents T s.cs_pin_ (powerUpDatagram H).uint32 H.DATAGRAM_SIZE
    (s.events ++ [Event.spiBegin]) []
  rw [List.append_nil] at h
  have hcons : ∀ es, transactions (Event.spiBegin :: es) = transactions es := by
    intro es; simp [transactions, transactionsFrom]
  rw [hcons, h]
  have hlt := powerBits_lt H hP
  have h16 : (H.POWER_CONTROL_DAC_A ||| H.POWER_CONTROL_DAC_B ||| H.POWER_CONTROL_DAC_C |||
      H.POWER_CONTROL_DAC_D ||| H.POWER_CONTROL_REF) < 2 ^ 16 :=
    lt_of_lt_of_le hlt (Nat.pow_le_pow_right (by norm_num) (min_le_left _ _))
  have hw : (H.POWER_CONTROL_DAC_A ||| H.POWER_CONTROL_DAC_B ||| H.POWER_CONTROL_DAC_C |||
      H.POWER_CONTROL_DAC_D ||| H.POWER_CONTROL_REF) < 2 ^ H.data.width :=
    lt_of_lt_of_le hlt (Nat.pow_le_pow_right (by norm_num) (min_le_right _ _))
  simp only [transactions, transactionsFrom, List.map_cons, List.map_nil,
    decode_wireBytes H hL, powerUpDatagram, fields_setData H hL, fields_header H hL]
  rw [Nat.mod_eq_of_lt h16, Nat.mod_eq_of_lt hw, Nat.mod_eq_of_lt hC.2.1,
    Nat.mod_eq_of_lt hC.2.2.2.2.1, Nat.mod_eq_of_lt hC.2.2.2.2.2.2.2.2.2.2.2.1]

theorem power_up_sequence_witness :
    sampleHeader.FieldsOnWire ∧ sampleHeader.CodesFit ∧ sampleHeader.PowerBitsFit ∧
    (transactions (eventsSince sampleState
        (setup sampleHeader silent Resolution.AD5734R 7 sampleState))).map (decode sampleHeader) =
      [{ rw := 0, reg := 2, channel_address := 0, data := 31 }] :=
  ⟨by decide, by decide, by decide,
    power_up_sequence sampleHeader (by decide) (by decide) (by decide) silent
      Resolution.AD5734R 7 sampleState⟩


theorem analogWriteToChip_eq (H : Header) (T : Transport) (ci : Int) (ca : Nat) (data : Int)
    (s : State) :
    analogWriteToChip H T ci ca data s =
      writeMosiDatagramToChip H T ci (loadDatagram H)
        (writeMosiDatagramToChip H T ci (dacDatagram H s.resolution_ ca data) s) := by
  unfold analogWriteToChip load dacDatagram loadDatagram
  cases s.resolution_ <;> rfl

theorem analogWriteToChip_events (H : Header) (T : Transport) (ci : Int) (ca : Nat)
    (data : Int) (s : State) :
    (analogWriteToChip H T ci ca data s).events =
      s.events ++
        (txEvents T s.cs_pin_ (dacDatagram H s.resolution_ ca data).uint32 H.DATAGRAM_SIZE
            s.events ++
          txEvents T s.cs_pin_ (loadDatagram H).uint32 H.DATAGRAM_SIZE
            (s.events ++ txEvents T s.cs_pin_ (dacDatagram H s.resolution_ ca data).uint32
              H.DATAGRAM_SIZE s.events)) := by
  rw [analogWriteToChip_eq]
  simp [writeMosiDatagramToChip_eq]

theorem fields_setDataLong (H : Header) (hL : H.FieldsOnWire) (d : Datagram) (v : Int) :
    (d.setDataLong H v).fields H =
      { d.fields H with data := (v % 2 ^ H.data.width).toNat } := by
  have hm : (v % 2 ^ H.data.width).toNat % 2 ^ H.data.width = (v % 2 ^ H.data.width).toNat := by
    apply Nat.mod_eq_of_lt
    have hpos : (0 : Int) < 2 ^ H.data.width := by positivity
    have h1 := Int.emod_lt_of_pos v hpos
    have h0 := Int.emod_nonneg v hpos.ne'
    zify
    rw [Int.toNat_of_nonneg h0]
    exact_mod_cast h1
  unfold Datagram.setDataLong
  rw [fields_setData H hL, hm]

theorem fields_dacDatagram (H : Header) (hL : H.FieldsOnWire) (resolution : Resolution)
    (ca : Nat) (data : Int) :
    (dacDatagram H resolution ca data).fields H =
      { rw := H.RW_WRITE % 2 ^ H.rw.width
        reg := H.REGISTER_DAC % 2 ^ H.reg.width
        channel_address := ca % 2 ^ H.channel_address.width
        data := ((data * 2 ^ (16 - nativeWidth resolution)) % 2 ^ H.data.width).toNat } := by
  unfold dacDatagram
  cases resolution <;>
    simp [fields_setDataLong H hL, fields_header H hL, nativeWidth]

/-- Claim C4 (payload scaling).  For every channel and every raw value `V` below `2 ^ N`,
`N` the native width of the configured resolution, the first datagram that `analogWrite`
puts on the bus decodes to a write (`RW_WRITE`) to `REGISTER_DAC` whose payload is
`V << (16 - N)`: `V << 4` at 12 bits, `V << 2` at 14 bits, `V` at 16 bits. -/
theorem payload_scaling (H : Header) (hL : H.FieldsOnWire) (hC : H.CodesFit)
    (hw : H.data.width = 16) (T : Transport) (channel V : Nat) (s : State)
    (hV : V < 2 ^ nativeWidth s.resolution_) :
    (((transactions (eventsSince s (analogWrite H T channel (V : Int) s))).map
        (decode H)).head?).map (fun d => (d.rw, d.reg, d.data)) =
      some (H.RW_WRITE, H.REGISTER_DAC, V <<< (16 - nativeWidth s.resolution_)) := by
  unfold analogWrite
  rw [eventsSince_of_events_eq (analogWriteToChip_events ..), transactions_txEvents]
  simp only [List.map_cons, List.head?_cons, Option.map_some', decode_wireBytes H hL,
    fields_dacDatagram H hL, Nat.mod_eq_of_lt hC.2.1, Nat.mod_eq_of_lt hC.2.2.1, hw]
  have hN : nativeWidth s.resolution_ ≤ 16 := by cases s.resolution_ <;> simp [nativeWidth]
  have hlt : V * 2 ^ (16 - nativeWidth s.resolution_) < 2 ^ 16 := by
    calc V * 2 ^ (16 - nativeWidth s.resolution_)
        < 2 ^ nativeWidth s.resolution_ * 2 ^ (16 - nativeWidth s.resolution_) :=
          Nat.mul_lt_mul_of_pos_right hV (by positivity)
      _ = 2 ^ 16 := by rw [← pow_add]; congr 1; omega
  have hcast : ((V : Int) * 2 ^ (16 - nativeWidth s.resolution_)) % 2 ^ 16 =
      ((V * 2 ^ (16 - nativeWidth s.resolution_) : Nat) : Int) := by
    push_cast
    exact Int.emod_eq_of_lt (by positivity) (by exact_mod_cast hlt)
  rw [hcast, Int.toNat_natCast, Nat.shiftLeft_eq]

theorem payload_scaling_witness :
    sampleHeader.FieldsOnWire ∧ sampleHeader.CodesFit ∧ sampleHeader.data.width = 16 ∧
    (4095 : Nat) < 2 ^ nativeWidth sampleState.resolution_ ∧
    (((transactions (eventsSince sampleState
        (analogWrite sampleHeader silent 5 ((4095 : Nat) : Int) sampleState))).map
        (decode sampleHeader)).head?).map (fun d => (d.rw, d.reg, d.data)) =
      some (0, 0, 4095 <<< 4) :=
  ⟨by decide, by decide, by decide, by decide,
    payload_scaling sampleHeader (by decide) (by decide) (by decide) silent 5 4095 sampleState
      (by decide)⟩

/-- Claim C6 (chip-count clamping).  For every chip-count argument `n`, after `setup` the
chip count is `n` when `1 ≤ n ≤ 4` and 1 otherwise; so it lies in 1..4, and the channel
count is four times it, one of 4, 8, 12, 16. -/
theorem chip_count_clamping (H : Header) (hS : H.AsSpecified) (T : Transport)
    (resolution : Resolution) (n : Nat) (s : State) :
    getChipCount (setup H T resolution n s) = (if 1 ≤ n ∧ n ≤ 4 then n else 1) ∧
      1 ≤ getChipCount (setup H T resolution n s) ∧
      getChipCount (setup H T resolution n s) ≤ 4 ∧
      getChannelCount H (setup H T resolution n s) =
        4 * getChipCount (setup H T resolution n s) ∧
      getChannelCount H (setup H T resolution n s) ∈ [4, 8, 12, 16] := by
  obtain ⟨hmin, hmax, h4⟩ := hS
  have hcc : (setup H T resolution n s).chip_count_ = if 1 ≤ n ∧ n ≤ 4 then n else 1 := by
    unfold setup powerUpAllDacs
    simp only [writeMosiDatagramToChip_eq, hmin, hmax]
    split <;> simp [State.emit]
  unfold getChipCount getChannelCount
  rw [hcc, h4]
  by_cases h : 1 ≤ n ∧ n ≤ 4
  · simp only [h, and_self, if_true]
    obtain ⟨h1, h2⟩ := h
    interval_cases n <;> simp
  · simp [h]

theorem chip_count_clamping_witness :
    sampleHeader.AsSpecified ∧
      getChipCount (setup sampleHeader silent Resolution.AD5754R 200 sampleState) = 1 ∧
      getChipCount (setup sampleHeader silent Resolution.AD5754R 3 sampleState) = 3 :=
  ⟨by decide,
    (chip_count_clamping sampleHeader (by decide) silent Resolution.AD5754R 200 sampleState).1,
    (chip_count_clamping sampleHeader (by decide) silent Resolution.AD5754R 3 sampleState).1⟩


theorem setup_members (H : Header) (T : Transport) (resolution : Resolution) (n : Nat)
    (s : State) :
    (setup H T resolution n s).unipolar_ = true ∧
      (setup H T resolution n s).resolution_ = resolution := by
  unfold setup powerUpAllDacs
  simp only [writeMosiDatagramToChip_eq]
  split <;> simp [State.emit]

theorem setOutputRangeToChip_unipolar (H : Header) (T : Transport) (ci : Int) (ca : Nat)
    (r : Range) (s : State) :
    (setOutputRangeToChip H T ci ca r s).unipolar_ = (rangeSwitch H r).1 ∧
      (setOutputRangeToChip H T ci ca r s).resolution_ = s.resolution_ := by
  unfold setOutputRangeToChip
  simp [writeMosiDatagramToChip_eq]

theorem rangeSwitch_bipolar (H : Header) (r : Range) :
    (rangeSwitch H r).1 = false ↔
      (r = Range.BIPOLAR_5V ∨ r = Range.BIPOLAR_10V ∨ r = Range.BIPOLAR_10V8) := by
  cases r <;> simp [rangeSwitch]

theorem getMinDacValue_neg_iff (s : State) : getMinDacValue s < 0 ↔ s.unipolar_ = false := by
  unfold getMinDacValue
  cases s.unipolar_ <;> cases s.resolution_ <;> simp

theorem getMinDacValue_zero_iff (s : State) : getMinDacValue s = 0 ↔ s.unipolar_ = true := by
  unfold getMinDacValue
  cases s.unipolar_ <;> cases s.resolution_ <;> simp

/-- Claim C7 (bipolar bounds).  When the stored polarity is bipolar, `getMinDacValue` is
`-2 ^ (N - 1)` and `getMaxDacValue` is `2 ^ (N - 1) - 1`, `N` the native width of the
resolution; for the 14-bit variant these are -8192 and 8191. -/
theorem bipolar_bounds (s : State) (h : s.unipolar_ = false) :
    getMinDacValue s = -2 ^ (nativeWidth s.resolution_ - 1) ∧
      getMaxDacValue s = 2 ^ (nativeWidth s.resolution_ - 1) - 1 ∧
      (s.resolution_ = Resolution.AD5734R →
        getMinDacValue s = -8192 ∧ getMaxDacValue s = 8191) := by
  unfold getMinDacValue getMaxDacValue
  rw [h]
  cases s.resolution_ <;> simp [nativeWidth]

theorem bipolar_bounds_witness :
    ({ sampleState with resolution_ := Resolution.AD5734R } : State).unipolar_ = false ∧
      getMinDacValue { sampleState with resolution_ := Resolution.AD5734R } = -8192 ∧
      getMaxDacValue { sampleState with resolution_ := Resolution.AD5734R } = 8191 :=
  ⟨rfl, (bipolar_bounds { sampleState with resolution_ := Resolution.AD5734R } rfl).2.2 rfl⟩

/-- Claim C8 (unipolar bounds), evaluated on the code.  With unipolar polarity
`getMinDacValue` is 0 for every resolution, but `getMaxDacValue` is `2 ^ N - 1` only for
the 12-bit and 14-bit variants: for the 16-bit variant it is 65536, one more than
`2 ^ 16 - 1`. -/
theorem unipolar_bounds_evaluated (s : State) (r : Resolution) :
    getMinDacValue { s with resolution_ := r, unipolar_ := true } = 0 ∧
      (getMaxDacValue { s with resolution_ := r, unipolar_ := true } = 2 ^ nativeWidth r - 1 ↔
        r ≠ Resolution.AD5754R) ∧
      getMaxDacValue { s with resolution_ := Resolution.AD5754R, unipolar_ := true } =
        (2 ^ 16 - 1) + 1 := by
  cases r <;> simp [getMinDacValue, getMaxDacValue, nativeWidth]

/-- Claim C9 (16-bit unipolar literal).  Right after `setup` of the 16-bit variant, with
any chip-count argument, `getMinDacValue` is 0 and `getMaxDacValue` is 65536 exactly, not
65535. -/
theorem unipolar_16bit_literal (H : Header) (T : Transport) (n : Nat) (s : State) :
    getMinDacValue (setup H T Resolution.AD5754R n s) = 0 ∧
      getMaxDacValue (setup H T Resolution.AD5754R n s) = 65536 ∧
      getMaxDacValue (setup H T Resolution.AD5754R n s) ≠ 65535 := by
  obtain ⟨hu, hr⟩ := setup_members H T Resolution.AD5754R n s
  simp [getMinDacValue, getMaxDacValue, hu, hr]

/-- Claim C10 (polarity tracking).  From every state, for every channel and every range,
after `setOutputRange` (and likewise after `setOutputRangeAll`) the stored polarity is
bipolar exactly when the range is `BIPOLAR_5V`, `BIPOLAR_10V` or `BIPOLAR_10V8`; so
`getMinDacValue` is then negative after a bipolar range and 0 after any other. -/
theorem polarity_tracking (H : Header) (T : Transport) (channel : Nat) (r : Range)
    (s : State) :
    ((setOutputRange H T channel r s).unipolar_ = false ↔
        (r = Range.BIPOLAR_5V ∨ r = Range.BIPOLAR_10V ∨ r = Range.BIPOLAR_10V8)) ∧
      (getMinDacValue (setOutputRange H T channel r s) < 0 ↔
        (r = Range.BIPOLAR_5V ∨ r = Range.BIPOLAR_10V ∨ r = Range.BIPOLAR_10V8)) ∧
      (getMinDacValue (setOutputRange H T channel r s) = 0 ↔
        ¬ (r = Range.BIPOLAR_5V ∨ r = Range.BIPOLAR_10V ∨ r = Range.BIPOLAR_10V8)) ∧
      ((setOutputRangeAll H T r s).unipolar_ = false ↔
        (r = Range.BIPOLAR_5V ∨ r = Range.BIPOLAR_10V ∨ r = Range.BIPOLAR_10V8)) ∧
      (getMinDacValue (setOutputRangeAll H T r s) < 0 ↔
        (r = Range.BIPOLAR_5V ∨ r = Range.BIPOLAR_10V ∨ r = Range.BIPOLAR_10V8)) ∧
      (getMinDacValue (setOutputRangeAll H T r s) = 0 ↔
        ¬ (r = Range.BIPOLAR_5V ∨ r = Range.BIPOLAR_10V ∨ r = Range.BIPOLAR_10V8)) := by
  have key : ∀ (ci : Int) (ca : Nat),
      (setOutputRangeToChip H T ci ca r s).unipolar_ = false ↔
        (r = Range.BIPOLAR_5V ∨ r = Range.BIPOLAR_10V ∨ r = Range.BIPOLAR_10V8) := by
    intro ci ca
    rw [(setOutputRangeToChip_unipolar H T ci ca r s).1, rangeSwitch_bipolar]
  have key0 : ∀ (ci : Int) (ca : Nat),
      getMinDacValue (setOutputRangeToChip H T ci ca r s) = 0 ↔
        ¬ (r = Range.BIPOLAR_5V ∨ r = Range.BIPOLAR_10V ∨ r = Range.BIPOLAR_10V8) := by
    intro ci ca
    rw [getMinDacValue_zero_iff, ← key ci ca]
    simp
  unfold setOutputRange setOutputRangeAll
  simp only [getMinDacValue_neg_iff]
  exact ⟨key _ _, key _ _, key0 _ _, key _ _, key _ _, key0 _ _⟩

/-! ## Lemmas on the traces of the operations -/

theorem receivedBytes_append (xs ys : List Event) :
    receivedBytes (xs ++ ys) = receivedBytes xs ++ receivedBytes ys := by
  induction xs with
  | nil => rfl
  | cons e xs ih => cases e <;> simp [receivedBytes, ih]

theorem mem_receivedBytes_loopEvents_lt (T : Transport) (w n : Nat) (es : List Event)
    (b : Nat) (h : b ∈ receivedBytes (loopEvents T w n es)) : b < 256 := by
  induction n generalizing es with
  | zero => simp [loopEvents, receivedBytes] at h
  | succ i ih =>
    simp only [loopEvents, receivedBytes, List.mem_cons] at h
    rcases h with h | h
    · rw [h]; exact Nat.mod_lt _ (by norm_num)
    · exact ih _ h

theorem receptionsFrom_loopEvents (T : Transport) (w n : Nat) (es rest : List Event)
    (acc : List Nat) :
    receptionsFrom (some acc) (loopEvents T w n es ++ rest) =
      receptionsFrom (some (acc ++ receivedBytes (loopEvents T w n es))) rest := by
  induction n generalizing es acc with
  | zero => simp [loopEvents, receivedBytes]
  | succ i ih =>
    simp [loopEvents, receptionsFrom, receivedBytes, ih]

theorem receptions_txEvents (T : Transport) (cs w n : Nat) (es rest : List Event) :
    receptions (txEvents T cs w n es ++ rest) =
      receivedBytes (loopEvents T w n
          (es ++ [Event.spiBeginTransaction, Event.digitalWrite cs Level.LOW])) ::
        receptions rest := by
  unfold txEvents receptions
  simp [receptionsFrom, receptionsFrom_loopEvents]

theorem framedFrom_loopEvents (T : Transport) (cs n w m : Nat) (es rest : List Event)
    (k : Nat) :
    framedFrom cs n (some k) (loopEvents T w m es ++ rest) =
      framedFrom cs n (some (k + m)) rest := by
  induction m generalizing es k with
  | zero => simp [loopEvents]
  | succ i ih =>
    simp only [loopEvents, List.cons_append, framedFrom]
    show framedFrom cs n (some (k + 1)) (loopEvents T w i _ ++ rest) = _
    rw [ih, Nat.add_assoc, Nat.add_comm 1 i]

theorem framedFrom_txEvents (T : Transport) (cs w n : Nat) (es rest : List Event) :
    framedFrom cs n none (txEvents T cs w n es ++ rest) = framedFrom cs n none rest := by
  unfold txEvents
  simp [framedFrom, framedFrom_loopEvents]

theorem framed_txEvents (T : Transport) (cs w n : Nat) (es : List Event) :
    framed cs n (txEvents T cs w n es) = true := by
  have h := framedFrom_txEvents T cs w n es []
  rw [List.append_nil] at h
  unfold framed
  rw [h]
  rfl

theorem framed_txEvents_append (T : Transport) (cs w n : Nat) (es rest : List Event) :
    framed cs n (txEvents T cs w n es ++ rest) = framed cs n rest :=
  framedFrom_txEvents T cs w n es rest

theorem transactions_nil : transactions [] = [] := rfl

theorem transactions_single (T : Transport) (cs w n : Nat) (es : List Event) :
    transactions (txEvents T cs w n es) = [wireBytes w n] := by
  have h := transactions_txEvents T cs w n es []
  rw [List.append_nil] at h
  rw [h]; rfl

theorem setOutputRangeToChip_eq (H : Header) (T : Transport) (ci : Int) (ca : Nat)
    (r : Range) (s : State) :
    setOutputRangeToChip H T ci ca r s =
      { s with
        unipolar_ := (rangeSwitch H r).1
        events := s.events ++
          txEvents T s.cs_pin_ (rangeDatagram H ca r).uint32 H.DATAGRAM_SIZE s.events } := by
  simp [setOutputRangeToChip, writeMosiDatagramToChip_eq, rangeDatagram]

theorem analogWriteToChip_state (H : Header) (T : Transport) (ci : Int) (ca : Nat)
    (data : Int) (s : State) :
    analogWriteToChip H T ci ca data s =
      { s with events := s.events ++
        (txEvents T s.cs_pin_ (dacDatagram H s.resolution_ ca data).uint32 H.DATAGRAM_SIZE
            s.events ++
          txEvents T s.cs_pin_ (loadDatagram H).uint32 H.DATAGRAM_SIZE
            (s.events ++ txEvents T s.cs_pin_ (dacDatagram H s.resolution_ ca data).uint32
              H.DATAGRAM_SIZE s.events)) } := by
  rw [analogWriteToChip_eq]
  simp [writeMosiDatagramToChip_eq]

theorem readPowerControlRegister_snd (H : Header) (T : Transport) (ci : Nat) (s : State) :
    (readPowerControlRegister H T ci s).2 =
      { s with events := s.events ++
        (txEvents T s.cs_pin_ (readRequestDatagram H).uint32 H.DATAGRAM_SIZE s.events ++
          txEvents T s.cs_pin_ (nopDatagram H).uint32 H.DATAGRAM_SIZE
            (s.events ++ txEvents T s.cs_pin_ (readRequestDatagram H).uint32
              H.DATAGRAM_SIZE s.events)) } := by
  unfold readPowerControlRegister
  simp only [readMisoDatagramFromChip_snd]
  simp [writeMosiDatagramToChip_eq, readRequestDatagram]

theorem readPowerControlRegister_fst (H : Header) (T : Transport) (ci : Nat) (s : State) :
    (readPowerControlRegister H T ci s).1 =
      ((Datagram.mk (orBytes (receivedBytes (loopEvents T (nopDatagram H).uint32
        H.DATAGRAM_SIZE
        (s.events ++ txEvents T s.cs_pin_ (readRequestDatagram H).uint32
            H.DATAGRAM_SIZE s.events ++
          [Event.spiBeginTransaction, Event.digitalWrite s.cs_pin_ Level.LOW]))))).fields
        H).data % 2 ^ 16 := by
  have hd : ∀ s1 : State, (readMisoDatagramFromChip H T ci s1).1 =
      ⟨orBytes (receivedBytes (loopEvents T (nopDatagram H).uint32 H.DATAGRAM_SIZE
        (s1.events ++ [Event.spiBeginTransaction, Event.digitalWrite s1.cs_pin_ Level.LOW])))⟩ := by
    intro s1
    have h := readLoop_fst T (nopDatagram H) H.DATAGRAM_SIZE ⟨0⟩ (spiBeginTransaction s1)
    simp only [Nat.zero_or] at h
    have e : (spiBeginTransaction s1).events =
        s1.events ++ [Event.spiBeginTransaction, Event.digitalWrite s1.cs_pin_ Level.LOW] := by
      simp [spiBeginTransaction, csEnable, State.emit]
    rw [e] at h
    show (readLoop T (nopDatagram H) H.DATAGRAM_SIZE (⟨0⟩, spiBeginTransaction s1)).1 = _
    rw [← h]
  unfold readPowerControlRegister
  simp only [hd, writeMosiDatagramToChip_eq]
  rfl

theorem channelToChannelAddress_fits (H : Header) (hC : H.CodesFit) (c : Nat) :
    channelToChannelAddress H c % 2 ^ H.channel_address.width =
      channelToChannelAddress H c := by
  obtain ⟨-, -, -, -, -, -, hA, hB, hCc, hD, -⟩ := hC
  apply Nat.mod_eq_of_lt
  unfold channelToChannelAddress
  simp only []
  split
  · exact lt_of_le_of_lt (Nat.mod_le _ _) hA
  · exact lt_of_le_of_lt (Nat.mod_le _ _) hB
  · exact lt_of_le_of_lt (Nat.mod_le _ _) hCc
  · exact lt_of_le_of_lt (Nat.mod_le _ _) hD
  · positivity

theorem fields_rangeDatagram (H : Header) (hL : H.FieldsOnWire) (ca : Nat) (r : Range) :
    (rangeDatagram H ca r).fields H =
      { rw := H.RW_WRITE % 2 ^ H.rw.width
        reg := H.REGISTER_OUTPUT_RANGE % 2 ^ H.reg.width
        channel_address := ca % 2 ^ H.channel_address.width
        data := (rangeSwitch H r).2 % 2 ^ H.data.width } := by
  unfold rangeDatagram
  simp only [fields_setData H hL, fields_header H hL]

theorem rangeSwitch_code (H : Header) (hR : H.RangeCodesFit) (r : Range) (k : Nat)
    (hk : Range.code? H r = some k) :
    (rangeSwitch H r).2 % 2 ^ H.data.width = k := by
  obtain ⟨h1, h2, h3, h4, h5, h6⟩ := hR
  have key : ∀ x, x < 2 ^ min 16 H.data.width → x % 2 ^ 16 % 2 ^ H.data.width = x := by
    intro x hx
    have h16 : x < 2 ^ 16 :=
      lt_of_lt_of_le hx (Nat.pow_le_pow_right (by norm_num) (min_le_left _ _))
    have hw : x < 2 ^ H.data.width :=
      lt_of_lt_of_le hx (Nat.pow_le_pow_right (by norm_num) (min_le_right _ _))
    rw [Nat.mod_eq_of_lt h16, Nat.mod_eq_of_lt hw]
  cases r <;> simp only [Range.code?, Option.some.injEq] at hk <;>
    first
    | (subst hk; simp only [rangeSwitch]; apply key; assumption)
    | exact absurd hk (by simp)

theorem setOutputRangeToChip_decoded (H : Header) (hL : H.FieldsOnWire) (T : Transport)
    (ci : Int) (ca : Nat) (r : Range) (s : State) :
    (transactions (eventsSince s (setOutputRangeToChip H T ci ca r s))).map (decode H) =
      [{ rw := H.RW_WRITE % 2 ^ H.rw.width
         reg := H.REGISTER_OUTPUT_RANGE % 2 ^ H.reg.width
         channel_address := ca % 2 ^ H.channel_address.width
         data := (rangeSwitch H r).2 % 2 ^ H.data.width }] := by
  have hev : (setOutputRangeToChip H T ci ca r s).events = s.events ++
      txEvents T s.cs_pin_ (rangeDatagram H ca r).uint32 H.DATAGRAM_SIZE s.events := by
    rw [setOutputRangeToChip_eq]
  rw [eventsSince_of_events_eq hev, transactions_single]
  simp only [List.map_cons, List.map_nil, decode_wireBytes H hL, fields_rangeDatagram H hL]

/-- Claim C11 (output-range datagram).  For every channel `c` and each of the six ranges,
with code `k`, `setOutputRange` adds exactly one transaction to the bus, which decodes to
`RW_WRITE`, `REGISTER_OUTPUT_RANGE`, the address `channelToChannelAddress c` and the
payload `k`; `setOutputRangeAll` adds the same single datagram with the address
`CHANNEL_ADDRESS_ALL`. -/
theorem output_range_datagram (H : Header) (hL : H.FieldsOnWire) (hC : H.CodesFit)
    (hR : H.RangeCodesFit) (hall : H.CHANNEL_ADDRESS_ALL < 256) (T : Transport)
    (c : Nat) (r : Range) (k : Nat) (hk : Range.code? H r = some k) (s : State) :
    (transactions (eventsSince s (setOutputRange H T c r s))).map (decode H) =
        [{ rw := H.RW_WRITE
           reg := H.REGISTER_OUTPUT_RANGE
           channel_address := channelToChannelAddress H c
           data := k }] ∧
      (transactions (eventsSince s (setOutputRangeAll H T r s))).map (decode H) =
        [{ rw := H.RW_WRITE
           reg := H.REGISTER_OUTPUT_RANGE
           channel_address := H.CHANNEL_ADDRESS_ALL
           data := k }] := by
  unfold setOutputRange setOutputRangeAll
  simp only [setOutputRangeToChip_decoded H hL, rangeSwitch_code H hR r k hk,
    channelToChannelAddress_fits H hC, Nat.mod_eq_of_lt hC.2.1,
    Nat.mod_eq_of_lt hC.2.2.2.1, Nat.mod_eq_of_lt hall,
    Nat.mod_eq_of_lt hC.2.2.2.2.2.2.2.2.2.2.1, and_self]

theorem output_range_datagram_witness :
    sampleHeader.FieldsOnWire ∧ sampleHeader.CodesFit ∧ sampleHeader.RangeCodesFit ∧
    Range.code? sampleHeader Range.BIPOLAR_10V = some 4 ∧
    (transactions (eventsSince sampleState
        (setOutputRange sampleHeader silent 6 Range.BIPOLAR_10V sampleState))).map
        (decode sampleHeader) =
      [{ rw := 0, reg := 1, channel_address := 2, data := 4 }] ∧
    (transactions (eventsSince sampleState
        (setOutputRangeAll sampleHeader silent Range.BIPOLAR_10V sampleState))).map
        (decode sampleHeader) =
      [{ rw := 0, reg := 1, channel_address := 4, data := 4 }] :=
  ⟨by decide, by decide, by decide, rfl,
    output_range_datagram sampleHeader (by decide) (by decide) (by decide) (by decide)
      silent 6 Range.BIPOLAR_10V 4 rfl sampleState⟩

/-- Claim C12 (unrecognised range default).  For a range argument outside the six
enumerated ranges, `setOutputRange` (and `setOutputRangeAll`) ends in exactly the state,
trace included, that `UNIPOLAR_5V` gives: the stored polarity is unipolar and the payload
of the one datagram on the bus is `OUTPUT_RANGE_UNIPOLAR_5V`. -/
theorem unrecognised_range_default (H : Header) (hL : H.FieldsOnWire)
    (hR : H.RangeCodesFit) (T : Transport) (c raw : Nat) (s : State) :
    setOutputRange H T c (Range.unrecognised raw) s =
        setOutputRange H T c Range.UNIPOLAR_5V s ∧
      setOutputRangeAll H T (Range.unrecognised raw) s =
        setOutputRangeAll H T Range.UNIPOLAR_5V s ∧
      (setOutputRange H T c (Range.unrecognised raw) s).unipolar_ = true ∧
      (setOutputRangeAll H T (Range.unrecognised raw) s).unipolar_ = true ∧
      ((transactions (eventsSince s
          (setOutputRange H T c (Range.unrecognised raw) s))).map (decode H)).map
          (fun d => d.data) = [H.OUTPUT_RANGE_UNIPOLAR_5V] ∧
      ((transactions (eventsSince s
          (setOutputRangeAll H T (Range.unrecognised raw) s))).map (decode H)).map
          (fun d => d.data) = [H.OUTPUT_RANGE_UNIPOLAR_5V] := by
  have hk : (rangeSwitch H (Range.unrecognised raw)).2 % 2 ^ H.data.width =
      H.OUTPUT_RANGE_UNIPOLAR_5V := by
    have h := rangeSwitch_code H hR Range.UNIPOLAR_5V _ rfl
    simpa [rangeSwitch] using h
  refine ⟨rfl, rfl, ?_, ?_, ?_, ?_⟩
  · simp [setOutputRange, setOutputRangeToChip_eq, rangeSwitch]
  · simp [setOutputRangeAll, setOutputRangeToChip_eq, rangeSwitch]
  · unfold setOutputRange
    simp only [setOutputRangeToChip_decoded H hL, hk, List.map_cons, List.map_nil]
  · unfold setOutputRangeAll
    simp only [setOutputRangeToChip_decoded H hL, hk, List.map_cons, List.map_nil]

theorem unrecognised_range_default_witness :
    sampleHeader.FieldsOnWire ∧ sampleHeader.RangeCodesFit ∧
    setOutputRange sampleHeader silent 6 (Range.unrecognised 9)
        { sampleState with unipolar_ := false } =
      setOutputRange sampleHeader silent 6 Range.UNIPOLAR_5V
        { sampleState with unipolar_ := false } ∧
    (setOutputRange sampleHeader silent 6 (Range.unrecognised 9)
        { sampleState with unipolar_ := false }).unipolar_ = true :=
  have h := unrecognised_range_default sampleHeader (by decide) (by decide) silent 6 9
    { sampleState with unipolar_ := false }
  ⟨by decide, by decide, h.1, h.2.2.1⟩

theorem BitField.get_lt (f : BitField) (w : Nat) : f.get w < 2 ^ f.width := by
  rw [BitField.get_eq_mod]
  exact Nat.mod_lt _ (by positivity)

theorem txEvents_length (T : Transport) (cs w n : Nat) (es : List Event) :
    (txEvents T cs w n es).length = n + 4 := by
  simp [txEvents, loopEvents_length]

theorem readPowerControlRegister_events (H : Header) (T : Transport) (ci : Nat) (s : State) :
    (readPowerControlRegister H T ci s).2.events = s.events ++
      (txEvents T s.cs_pin_ (readRequestDatagram H).uint32 H.DATAGRAM_SIZE s.events ++
        txEvents T s.cs_pin_ (nopDatagram H).uint32 H.DATAGRAM_SIZE
          (s.events ++ txEvents T s.cs_pin_ (readRequestDatagram H).uint32
            H.DATAGRAM_SIZE s.events)) := by
  rw [readPowerControlRegister_snd]

theorem readPowerControlRegister_value (H : Header) (hL : H.FieldsOnWire)
    (hw : H.data.width = 16) (T : Transport) (ci : Nat) (s : State) :
    (readPowerControlRegister H T ci s).1 =
      (decode H ((receptions (eventsSince s (readPowerControlRegister H T ci s).2)).getD 1
        [])).data := by
  rw [eventsSince_of_events_eq (readPowerControlRegister_events H T ci s),
    receptions_txEvents]
  have h2 := receptions_txEvents T s.cs_pin_ (nopDatagram H).uint32 H.DATAGRAM_SIZE
    (s.events ++ txEvents T s.cs_pin_ (readRequestDatagram H).uint32 H.DATAGRAM_SIZE s.events)
    []
  rw [List.append_nil] at h2
  rw [h2, readPowerControlRegister_fst]
  simp only [List.getD_cons_succ, List.getD_cons_zero]
  rw [orBytes_eq_wordOfBytes _ (mem_receivedBytes_loopEvents_lt _ _ _ _)
    (by rw [receivedBytes_length]; exact hL.1)]
  unfold decode
  apply Nat.mod_eq_of_lt
  have h := BitField.get_lt H.data
    (wordOfBytes (receivedBytes (loopEvents T (nopDatagram H).uint32 H.DATAGRAM_SIZE
      (s.events ++ txEvents T s.cs_pin_ (readRequestDatagram H).uint32
          H.DATAGRAM_SIZE s.events ++
        [Event.spiBeginTransaction, Event.digitalWrite s.cs_pin_ Level.LOW]))))
  rw [hw] at h
  exact h

/-- Claim C14 (two-phase read).  For every transport, `readPowerControlRegister` adds
exactly two transactions to the bus.  The bytes sent in the first decode to `RW_READ`,
`REGISTER_POWER_CONTROL`, `CHANNEL_ADDRESS_POWER_CONTROL`, payload 0; those sent in the
second decode to the no-operation `RW_WRITE`, `REGISTER_CONTROL`, `CONTROL_ADDRESS_NOP`,
payload 0.  The value returned is the data field of the word spelled, most significant
byte first, by the bytes received during the second transaction; the bytes received
during the first do not enter it. -/
theorem two_phase_read (H : Header) (hL : H.FieldsOnWire) (hC : H.CodesFit)
    (hw : H.data.width = 16) (T : Transport) (chip_index : Nat) (s : State) :
    (transactions (eventsSince s (readPowerControlRegister H T chip_index s).2)).map
        (decode H) =
        [{ rw := H.RW_READ
           reg := H.REGISTER_POWER_CONTROL
           channel_address := H.CHANNEL_ADDRESS_POWER_CONTROL
           data := 0 },
         { rw := H.RW_WRITE
           reg := H.REGISTER_CONTROL
           channel_address := H.CONTROL_ADDRESS_NOP
           data := 0 }] ∧
      (receptions (eventsSince s (readPowerControlRegister H T chip_index s).2)).length = 2 ∧
      (readPowerControlRegister H T chip_index s).1 =
        (decode H ((receptions
          (eventsSince s (readPowerControlRegister H T chip_index s).2)).getD 1 [])).data := by
  refine ⟨?_, ?_, readPowerControlRegister_value H hL hw T chip_index s⟩
  · rw [eventsSince_of_events_eq (readPowerControlRegister_events H T chip_index s),
      transactions_txEvents, transactions_single]
    simp only [List.map_cons, List.map_nil, decode_wireBytes H hL, readRequestDatagram,
      nopDatagram, fields_header H hL]
    rw [Nat.mod_eq_of_lt hC.1, Nat.mod_eq_of_lt hC.2.1, Nat.mod_eq_of_lt hC.2.2.2.2.1,
      Nat.mod_eq_of_lt hC.2.2.2.2.2.1, Nat.mod_eq_of_lt hC.2.2.2.2.2.2.2.2.2.2.2.1,
      Nat.mod_eq_of_lt hC.2.2.2.2.2.2.2.2.2.2.2.2.1]
  · rw [eventsSince_of_events_eq (readPowerControlRegister_events H T chip_index s),
      receptions_txEvents]
    have h2 := receptions_txEvents T s.cs_pin_ (nopDatagram H).uint32 H.DATAGRAM_SIZE
      (s.events ++ txEvents T s.cs_pin_ (readRequestDatagram H).uint32 H.DATAGRAM_SIZE
        s.events) []
    rw [List.append_nil] at h2
    rw [h2]
    rfl

theorem two_phase_read_witness :
    sampleHeader.FieldsOnWire ∧ sampleHeader.CodesFit ∧ sampleHeader.data.width = 16 ∧
    (transactions (eventsSince sampleState
        (readPowerControlRegister sampleHeader
          (replyTransport sampleHeader sampleState 0x0202) 0 sampleState).2)).map
        (decode sampleHeader) =
      [{ rw := 1, reg := 2, channel_address := 0, data := 0 },
       { rw := 0, reg := 3, channel_address := 0, data := 0 }] ∧
    (readPowerControlRegister sampleHeader
        (replyTransport sampleHeader sampleState 0x0202) 0 sampleState).1 =
      (decode sampleHeader ((receptions (eventsSince sampleState
        (readPowerControlRegister sampleHeader
          (replyTransport sampleHeader sampleState 0x0202) 0 sampleState).2)).getD 1
        [])).data :=
  have h := two_phase_read sampleHeader (by decide) (by decide) (by decide)
    (replyTransport sampleHeader sampleState 0x0202) 0 sampleState
  ⟨by decide, by decide, by decide, h.1, h.2.2⟩

theorem readPowerControlRegister_replyTransport (H : Header) (hL : H.FieldsOnWire)
    (hw : H.data.width = 16) (s : State) (ci d : Nat) (hd : d < 2 ^ 16) :
    (readPowerControlRegister H (replyTransport H s d) ci s).1 = d := by
  rw [readPowerControlRegister_fst]
  unfold replyTransport
  rw [receivedBytes_replay _ _ _ (mem_wireBytes_lt _ _) _ _
    (by rw [wireBytes_length])
    (by simp [txEvents_length])
    (by
      rw [List.drop_left' (by simp [txEvents_length])]
      simp [sentBytes, wireBytes_length])]
  rw [wireBytes_length, Nat.sub_self, List.drop_zero,
    orBytes_eq_wordOfBytes _ (mem_wireBytes_lt _ _) (by rw [wireBytes_length]; exact hL.1),
    wordOfBytes_wireBytes, fields_mod_of_fieldsOnWire H hL]
  show H.data.get (H.data.set 0 d) % 2 ^ 16 = d
  rw [BitField.get_set_same, hw, Nat.mod_eq_of_lt hd, Nat.mod_eq_of_lt hd]

theorem maskedBit_eq_true_iff (data mask : Nat) :
    maskedBit data mask = true ↔ data &&& mask ≠ 0 := by
  simp [maskedBit]

theorem channelPoweredUp_fst (H : Header) (hS : H.AsSpecified) (hA : H.AddressesAreBytes)
    (hD : H.AddressesDistinct) (T : Transport) (c : Nat) (s : State) :
    (channelPoweredUp H T c s).1 =
      maskedBit (readPowerControlRegister H T (channelToChipIndex H c) s).1
        (powerBitOf H c) := by
  obtain ⟨hab, hac, had, hbc, hbd, hcd⟩ := hD
  unfold channelPoweredUp powerBitOf
  simp only [channelToChannelAddress_eq H hS hA]
  by_cases h0 : c % 4 = 0
  · simp [h0]
  · by_cases h1 : c % 4 = 1
    · simp [h1, hab.symm]
    · by_cases h2 : c % 4 = 2
      · simp [h2, hac.symm, hbc.symm]
      · simp [h0, h1, h2, had.symm, hbd.symm, hcd.symm]

theorem channelOverCurrent_fst (H : Header) (hS : H.AsSpecified) (hA : H.AddressesAreBytes)
    (hD : H.AddressesDistinct) (T : Transport) (c : Nat) (s : State) :
    (channelOverCurrent H T c s).1 =
      maskedBit (readPowerControlRegister H T (channelToChipIndex H c) s).1
        (overCurrentBitOf H c) := by
  obtain ⟨hab, hac, had, hbc, hbd, hcd⟩ := hD
  unfold channelOverCurrent overCurrentBitOf
  simp only [channelToChannelAddress_eq H hS hA]
  by_cases h0 : c % 4 = 0
  · simp [h0]
  · by_cases h1 : c % 4 = 1
    · simp [h1, hab.symm]
    · by_cases h2 : c % 4 = 2
      · simp [h2, hac.symm, hbc.symm]
      · simp [h0, h1, h2, had.symm, hbd.symm, hcd.symm]

theorem statusBits_example (H : Header) (hB : H.StatusBitsSeparate) :
    (H.POWER_CONTROL_DAC_B ||| H.POWER_CONTROL_OVERCURRENT_C) &&& H.POWER_CONTROL_DAC_B ≠ 0 ∧
      (H.POWER_CONTROL_DAC_B ||| H.POWER_CONTROL_OVERCURRENT_C) &&& H.POWER_CONTROL_DAC_A = 0 ∧
      (H.POWER_CONTROL_DAC_B ||| H.POWER_CONTROL_OVERCURRENT_C) &&&
        H.POWER_CONTROL_OVERCURRENT_C ≠ 0 := by
  obtain ⟨hne, hpw⟩ := hB
  have hb : H.POWER_CONTROL_DAC_B ≠ 0 := hne _ (by simp [Header.statusBits])
  have hc : H.POWER_CONTROL_OVERCURRENT_C ≠ 0 := hne _ (by simp [Header.statusBits])
  simp only [Header.statusBits, List.pairwise_cons, List.mem_cons, List.mem_singleton,
    forall_eq_or_imp, forall_eq] at hpw
  have hab : H.POWER_CONTROL_DAC_A &&& H.POWER_CONTROL_DAC_B = 0 := hpw.1.1
  have hac : H.POWER_CONTROL_DAC_A &&& H.POWER_CONTROL_OVERCURRENT_C = 0 := by tauto
  have hbc : H.POWER_CONTROL_DAC_B &&& H.POWER_CONTROL_OVERCURRENT_C = 0 := by tauto
  refine ⟨?_, ?_, ?_⟩
  · rw [Nat.and_comm, Nat.and_or_distrib_left, Nat.and_self, hbc, Nat.or_zero]
    exact hb
  · rw [Nat.and_comm, Nat.and_or_distrib_left, hab, hac]
    rfl
  · rw [Nat.and_comm, Nat.and_or_distrib_left, Nat.and_self, Nat.and_comm, hbc, Nat.zero_or]
    exact hc

/-- Claim C13 (status bit isolation).  Whatever the transport, with `d` the 16-bit value
that the register read returns: `channelPoweredUp c` is true exactly when `d` has the
`POWER_CONTROL_DAC_x` bit of the address `x` of `c`, `channelOverCurrent c` exactly when it
has the `POWER_CONTROL_OVERCURRENT_x` bit, `referencePoweredUp` exactly when it has
`POWER_CONTROL_REF` and `thermalShutdown` exactly when it has
`POWER_CONTROL_THERMAL_SHUTDOWN`; no other bit of `d` enters.  Every 16-bit `d` is the
reply of some transport.  When the reply has only the DAC-B and over-current-C bits, a
channel with address B is powered up, one with address A is not, and one with address C
is over current. -/
theorem status_bit_isolation (H : Header) (hL : H.FieldsOnWire) (hw : H.data.width = 16)
    (hS : H.AsSpecified) (hA : H.AddressesAreBytes) (hD : H.AddressesDistinct)
    (hB : H.StatusBitsSeparate) (T : Transport) (s : State) (c chip_index d : Nat)
    (hd : d < 2 ^ 16) :
    ((channelPoweredUp H T c s).1 = true ↔
        (readPowerControlRegister H T (channelToChipIndex H c) s).1 &&& powerBitOf H c ≠ 0) ∧
      ((channelOverCurrent H T c s).1 = true ↔
        (readPowerControlRegister H T (channelToChipIndex H c) s).1 &&&
          overCurrentBitOf H c ≠ 0) ∧
      ((referencePoweredUp H T chip_index s).1 = true ↔
        (readPowerControlRegister H T chip_index s).1 &&& H.POWER_CONTROL_REF ≠ 0) ∧
      ((thermalShutdown H T chip_index s).1 = true ↔
        (readPowerControlRegister H T chip_index s).1 &&&
          H.POWER_CONTROL_THERMAL_SHUTDOWN ≠ 0) ∧
      (readPowerControlRegister H (replyTransport H s d) chip_index s).1 = d ∧
      ((readPowerControlRegister H T (channelToChipIndex H c) s).1 =
          H.POWER_CONTROL_DAC_B ||| H.POWER_CONTROL_OVERCURRENT_C →
        (c % 4 = 1 → (channelPoweredUp H T c s).1 = true) ∧
        (c % 4 = 0 → (channelPoweredUp H T c s).1 = false) ∧
        (c % 4 = 2 → (channelOverCurrent H T c s).1 = true)) := by
  refine ⟨?_, ?_, ?_, ?_, readPowerControlRegister_replyTransport H hL hw s chip_index d hd, ?_⟩
  · rw [channelPoweredUp_fst H hS hA hD, maskedBit_eq_true_iff]
  · rw [channelOverCurrent_fst H hS hA hD, maskedBit_eq_true_iff]
  · simp [referencePoweredUp, maskedBit]
  · simp [thermalShutdown, maskedBit]
  · intro hr
    obtain ⟨e1, e2, e3⟩ := statusBits_example H hB
    rw [channelPoweredUp_fst H hS hA hD, channelOverCurrent_fst H hS hA hD, hr]
    refine ⟨?_, ?_, ?_⟩
    · intro h1
      simp [powerBitOf, h1, maskedBit, e1]
    · intro h0
      simp [powerBitOf, h0, maskedBit, e2]
    · intro h2
      simp [overCurrentBitOf, h2, maskedBit, e3]

theorem status_bit_isolation_witness :
    sampleHeader.FieldsOnWire ∧ sampleHeader.AsSpecified ∧ sampleHeader.AddressesAreBytes ∧
    sampleHeader.AddressesDistinct ∧ sampleHeader.StatusBitsSeparate ∧
    (readPowerControlRegister sampleHeader (replyTransport sampleHeader sampleState 0x0202)
      0 sampleState).1 = 0x0202 ∧
    (channelPoweredUp sampleHeader (replyTransport sampleHeader sampleState 0x0202)
      1 sampleState).1 = true ∧
    (channelPoweredUp sampleHeader (replyTransport sampleHeader sampleState 0x0202)
      0 sampleState).1 = false ∧
    (channelOverCurrent sampleHeader (replyTransport sampleHeader sampleState 0x0202)
      2 sampleState).1 = true :=
  ⟨by decide, by decide, by decide, by decide, by decide,
    (status_bit_isolation sampleHeader (by decide) (by decide) (by decide) (by decide)
      (by decide) (by decide) (replyTransport sampleHeader sampleState 0x0202) sampleState
      1 0 0x0202 (by decide)).2.2.2.2.1,
    ((status_bit_isolation sampleHeader (by decide) (by decide) (by decide) (by decide)
      (by decide) (by decide) (replyTransport sampleHeader sampleState 0x0202) sampleState
      1 0 0x0202 (by decide)).2.2.2.2.2 (by decide)).1 (by decide),
    ((status_bit_isolation sampleHeader (by decide) (by decide) (by decide) (by decide)
      (by decide) (by decide) (replyTransport sampleHeader sampleState 0x0202) sampleState
      0 0 0x0202 (by decide)).2.2.2.2.2 (by decide)).2.1 (by decide),
    ((status_bit_isolation sampleHeader (by decide) (by decide) (by decide) (by decide)
      (by decide) (by decide) (replyTransport sampleHeader sampleState 0x0202) sampleState
      2 0 0x0202 (by decide)).2.2.2.2.2 (by decide)).2.2 (by decide)⟩

theorem fields_loadDatagram (H : Header) (hL : H.FieldsOnWire) (hC : H.CodesFit) :
    (loadDatagram H).fields H =
      { rw := H.RW_WRITE, reg := H.REGISTER_CONTROL,
        channel_address := H.CONTROL_ADDRESS_LOAD, data := 0 } := by
  unfold loadDatagram
  rw [fields_header H hL, Nat.mod_eq_of_lt hC.2.1, Nat.mod_eq_of_lt hC.2.2.2.2.2.1,
    Nat.mod_eq_of_lt hC.2.2.2.2.2.2.2.2.2.2.2.2.2]

theorem analogWriteToChip_decoded (H : Header) (hL : H.FieldsOnWire) (hC : H.CodesFit)
    (T : Transport) (ci : Int) (ca : Nat) (value : Int) (s : State) :
    (transactions (eventsSince s (analogWriteToChip H T ci ca value s))).map (decode H) =
      [{ rw := H.RW_WRITE
         reg := H.REGISTER_DAC
         channel_address := ca % 2 ^ H.channel_address.width
         data := ((value * 2 ^ (16 - nativeWidth s.resolution_)) % 2 ^ H.data.width).toNat },
       { rw := H.RW_WRITE
         reg := H.REGISTER_CONTROL
         channel_address := H.CONTROL_ADDRESS_LOAD
         data := 0 }] := by
  rw [eventsSince_of_events_eq (analogWriteToChip_events ..), transactions_txEvents,
    transactions_single]
  simp only [List.map_cons, List.map_nil, decode_wireBytes H hL, fields_dacDatagram H hL,
    fields_loadDatagram H hL hC, Nat.mod_eq_of_lt hC.2.1, Nat.mod_eq_of_lt hC.2.2.1]

/-- Claim C15 (write then load).  For every channel and every value, `analogWrite` adds
exactly two transactions to the bus, in this order: the datagram `RW_WRITE`,
`REGISTER_DAC`, address of the channel, payload `(value << (16 - N)) mod 2 ^ 16`, and then
the load datagram `RW_WRITE`, `REGISTER_CONTROL`, `CONTROL_ADDRESS_LOAD`, payload 0.
`analogWriteAll` does the same with the address `CHANNEL_ADDRESS_ALL`. -/
theorem write_then_load (H : Header) (hL : H.FieldsOnWire) (hC : H.CodesFit)
    (hw : H.data.width = 16) (hall : H.CHANNEL_ADDRESS_ALL < 256) (T : Transport)
    (channel : Nat) (value : Int) (s : State) :
    (transactions (eventsSince s (analogWrite H T channel value s))).map (decode H) =
        [{ rw := H.RW_WRITE
           reg := H.REGISTER_DAC
           channel_address := channelToChannelAddress H channel
           data := ((value * 2 ^ (16 - nativeWidth s.resolution_)) % 2 ^ 16).toNat },
         { rw := H.RW_WRITE
           reg := H.REGISTER_CONTROL
           channel_address := H.CONTROL_ADDRESS_LOAD
           data := 0 }] ∧
      (transactions (eventsSince s (analogWriteAll H T value s))).map (decode H) =
        [{ rw := H.RW_WRITE
           reg := H.REGISTER_DAC
           channel_address := H.CHANNEL_ADDRESS_ALL
           data := ((value * 2 ^ (16 - nativeWidth s.resolution_)) % 2 ^ 16).toNat },
         { rw := H.RW_WRITE
           reg := H.REGISTER_CONTROL
           channel_address := H.CONTROL_ADDRESS_LOAD
           data := 0 }] := by
  unfold analogWrite analogWriteAll
  simp only [analogWriteToChip_decoded H hL hC, channelToChannelAddress_fits H hC, hw,
    Nat.mod_eq_of_lt hall, Nat.mod_eq_of_lt hC.2.2.2.2.2.2.2.2.2.2.1, and_self]

theorem write_then_load_witness :
    sampleHeader.FieldsOnWire ∧ sampleHeader.CodesFit ∧ sampleHeader.data.width = 16 ∧
    (transactions (eventsSince sampleState
        (analogWrite sampleHeader silent 5 100 sampleState))).map (decode sampleHeader) =
      [{ rw := 0, reg := 0, channel_address := 1, data := 1600 },
       { rw := 0, reg := 3, channel_address := 5, data := 0 }] :=
  ⟨by decide, by decide, by decide,
    (write_then_load sampleHeader (by decide) (by decide) (by decide) (by decide) silent 5 100
      sampleState).1⟩

/-- Claim C18 (payload truncation without field corruption).  For every resolution, every
address that fits the address field and every `long` value, negative or too large
included, the first datagram that `analogWriteToChip` puts on the bus has payload
`(value << shift) mod 2 ^ 16`, with shift 0, 2 or 4 for 16, 14 or 12 bits, and its
direction, register and address fields are exactly `RW_WRITE`, `REGISTER_DAC` and the
requested address. -/
theorem payload_truncation (H : Header) (hL : H.FieldsOnWire) (hC : H.CodesFit)
    (hw : H.data.width = 16) (T : Transport) (chip_index : Int) (channel_address : Nat)
    (hca : channel_address < 2 ^ H.channel_address.width) (value : Int) (s : State) :
    ((transactions (eventsSince s
        (analogWriteToChip H T chip_index channel_address value s))).map (decode H)).head? =
        some { rw := H.RW_WRITE
               reg := H.REGISTER_DAC
               channel_address := channel_address
               data := ((value * 2 ^ (16 - nativeWidth s.resolution_)) % 2 ^ 16).toNat } ∧
      ((value * 2 ^ (16 - nativeWidth s.resolution_)) % 2 ^ 16).toNat < 2 ^ 16 ∧
      16 - nativeWidth s.resolution_ =
        (match s.resolution_ with
          | Resolution.AD5754R => 0
          | Resolution.AD5734R => 2
          | Resolution.AD5724R => 4) := by
  refine ⟨?_, ?_, ?_⟩
  · rw [analogWriteToChip_decoded H hL hC, hw, Nat.mod_eq_of_lt hca]
    rfl
  · have hpos : (0 : Int) < 2 ^ 16 := by norm_num
    have h1 := Int.emod_lt_of_pos (value * 2 ^ (16 - nativeWidth s.resolution_)) hpos
    have h0 := Int.emod_nonneg (value * 2 ^ (16 - nativeWidth s.resolution_)) hpos.ne'
    omega
  · cases s.resolution_ <;> rfl

theorem payload_truncation_witness :
    sampleHeader.FieldsOnWire ∧ sampleHeader.CodesFit ∧ sampleHeader.data.width = 16 ∧
    ((transactions (eventsSince sampleState
        (analogWriteToChip sampleHeader silent 7 3 (-1) sampleState))).map
        (decode sampleHeader)).head? =
      some { rw := 0, reg := 0, channel_address := 3, data := 65520 } :=
  ⟨by decide, by decide, by decide,
    (payload_truncation sampleHeader (by decide) (by decide) (by decide) silent 7 3
      (by decide) (-1) sampleState).1⟩

theorem framed_write_pair (T : Transport) (cs w1 w2 n : Nat) (es es' : List Event) :
    framed cs n (txEvents T cs w1 n es ++ txEvents T cs w2 n es') = true := by
  rw [framed_txEvents_append, framed_txEvents]

theorem status_snd (H : Header) (T : Transport) (c ci : Nat) (s : State) :
    (channelPoweredUp H T c s).2 =
        (readPowerControlRegister H T (channelToChipIndex H c) s).2 ∧
      (channelOverCurrent H T c s).2 =
        (readPowerControlRegister H T (channelToChipIndex H c) s).2 ∧
      (referencePoweredUp H T ci s).2 = (readPowerControlRegister H T ci s).2 ∧
      (thermalShutdown H T ci s).2 = (readPowerControlRegister H T ci s).2 :=
  ⟨rfl, rfl, rfl, rfl⟩

/-- Claim C16 (chip-select framing).  In the events that each bus operation adds to the
trace (`setup`, `setOutputRange`, `setOutputRangeAll`, `analogWrite`, `analogWriteAll` and
the four status reads), read from a deselected chip: chip-select is pulled low only while
deselected, every byte is shifted while selected, chip-select is released after exactly
`DATAGRAM_SIZE` transfers, and the operation ends deselected. -/
theorem chip_select_framing (H : Header) (T : Transport) (s : State)
    (resolution : Resolution) (chip_count channel chip_index : Nat) (range : Range)
    (value : Int) :
    framed s.cs_pin_ H.DATAGRAM_SIZE
        (eventsSince s (setup H T resolution chip_count s)) = true ∧
      framed s.cs_pin_ H.DATAGRAM_SIZE
        (eventsSince s (setOutputRange H T channel range s)) = true ∧
      framed s.cs_pin_ H.DATAGRAM_SIZE
        (eventsSince s (setOutputRangeAll H T range s)) = true ∧
      framed s.cs_pin_ H.DATAGRAM_SIZE
        (eventsSince s (analogWrite H T channel value s)) = true ∧
      framed s.cs_pin_ H.DATAGRAM_SIZE
        (eventsSince s (analogWriteAll H T value s)) = true ∧
      framed s.cs_pin_ H.DATAGRAM_SIZE
        (eventsSince s (channelPoweredUp H T channel s).2) = true ∧
      framed s.cs_pin_ H.DATAGRAM_SIZE
        (eventsSince s (referencePoweredUp H T chip_index s).2) = true ∧
      framed s.cs_pin_ H.DATAGRAM_SIZE
        (eventsSince s (thermalShutdown H T chip_index s).2) = true ∧
      framed s.cs_pin_ H.DATAGRAM_SIZE
        (eventsSince s (channelOverCurrent H T channel s).2) = true := by
  have hrange : ∀ (ci : Int) (ca : Nat), framed s.cs_pin_ H.DATAGRAM_SIZE
      (eventsSince s (setOutputRangeToChip H T ci ca range s)) = true := by
    intro ci ca
    have hev : (setOutputRangeToChip H T ci ca range s).events = s.events ++
        txEvents T s.cs_pin_ (rangeDatagram H ca range).uint32 H.DATAGRAM_SIZE s.events := by
      rw [setOutputRangeToChip_eq]
    rw [eventsSince_of_events_eq hev, framed_txEvents]
  have hwrite : ∀ (ci : Int) (ca : Nat), framed s.cs_pin_ H.DATAGRAM_SIZE
      (eventsSince s (analogWriteToChip H T ci ca value s)) = true := by
    intro ci ca
    rw [eventsSince_of_events_eq (analogWriteToChip_events ..), framed_write_pair]
  have hread : ∀ ci : Nat, framed s.cs_pin_ H.DATAGRAM_SIZE
      (eventsSince s (readPowerControlRegister H T ci s).2) = true := by
    intro ci
    rw [eventsSince_of_events_eq (readPowerControlRegister_events ..), framed_write_pair]
  obtain ⟨h1, h2, h3, h4⟩ := status_snd H T channel chip_index s
  refine ⟨?_, hrange (channelToChipIndex H channel) (channelToChannelAddress H channel),
    hrange (H.CHIP_INDEX_ALL % 256) (H.CHANNEL_ADDRESS_ALL % 256),
    hwrite (channelToChipIndex H channel) (channelToChannelAddress H channel),
    hwrite (H.CHIP_INDEX_ALL % 256) (H.CHANNEL_ADDRESS_ALL % 256), ?_, ?_, ?_, ?_⟩
  · rw [eventsSince_of_events_eq (setup_events ..)]
    show framed s.cs_pin_ H.DATAGRAM_SIZE (txEvents _ _ _ _ _) = true
    exact framed_txEvents ..
  · rw [h1]; exact hread _
  · rw [h3]; exact hread _
  · rw [h4]; exact hread _
  · rw [h2]; exact hread _

/-- Claim C17 (configuration frame).  From every state, each operation other than `setup`
leaves `chip_count_` and `resolution_` (and the chip-select pin) as they were, and every
one of them other than `setOutputRange` and `setOutputRangeAll` leaves the stored polarity
as it was.  The getters `getMinDacValue`, `getMaxDacValue`, `getChipCount` and
`getChannelCount` only read the state. -/
theorem configuration_frame (H : Header) (T : Transport) (s : State)
    (channel chip_index : Nat) (range : Range) (value : Int) :
    ((setOutputRange H T channel range s).chip_count_ = s.chip_count_ ∧
        (setOutputRange H T channel range s).resolution_ = s.resolution_ ∧
        (setOutputRange H T channel range s).cs_pin_ = s.cs_pin_) ∧
      ((setOutputRangeAll H T range s).chip_count_ = s.chip_count_ ∧
        (setOutputRangeAll H T range s).resolution_ = s.resolution_ ∧
        (setOutputRangeAll H T range s).cs_pin_ = s.cs_pin_) ∧
      (analogWrite H T channel value s =
        { s with events := (analogWrite H T channel value s).events }) ∧
      (analogWriteAll H T value s =
        { s with events := (analogWriteAll H T value s).events }) ∧
      ((channelPoweredUp H T channel s).2 =
        { s with events := (channelPoweredUp H T channel s).2.events }) ∧
      ((referencePoweredUp H T chip_index s).2 =
        { s with events := (referencePoweredUp H T chip_index s).2.events }) ∧
      ((thermalShutdown H T chip_index s).2 =
        { s with events := (thermalShutdown H T chip_index s).2.events }) ∧
      ((channelOverCurrent H T channel s).2 =
        { s with events := (channelOverCurrent H T channel s).2.events }) := by
  obtain ⟨h1, h2, h3, h4⟩ := status_snd H T channel chip_index s
  refine ⟨?_, ?_, ?_, ?_, ?_, ?_, ?_, ?_⟩
  · simp [setOutputRange, setOutputRangeToChip_eq]
  · simp [setOutputRangeAll, setOutputRangeToChip_eq]
  · simp [analogWrite, analogWriteToChip_state]
  · simp [analogWriteAll, analogWriteToChip_state]
  · rw [h1, readPowerControlRegister_snd]
  · rw [h3, readPowerControlRegister_snd]
  · rw [h4, readPowerControlRegister_snd]
  · rw [h2, readPowerControlRegister_snd]

theorem framed_rejects_stray_transfer (cs n b r : Nat) :
    framed cs n [Event.spiTransfer b r] = false := rfl

theorem channelToChannelAddress_mod (H : Header) (hS : H.AsSpecified) (c : Nat) :
    channelToChannelAddress H (c % 4) = channelToChannelAddress H c := by
  unfold channelToChannelAddress
  rw [hS.2.2, Nat.mod_mod]

theorem encodedPayload_eq (H : Header) (hL : H.FieldsOnWire) (hw : H.data.width = 16)
    (T : Transport) (c : Nat) (s : State) (value : Int) :
    encodedPayload H T c s value =
      some ((value * 2 ^ (16 - nativeWidth s.resolution_)) % 2 ^ 16).toNat := by
  unfold encodedPayload analogWrite
  rw [eventsSince_of_events_eq (analogWriteToChip_events ..), transactions_txEvents]
  simp only [List.map_cons, List.head?_cons, Option.map_some', decode_wireBytes H hL,
    fields_dacDatagram H hL, hw]

theorem analogWrite_65536 (H : Header) (hw : H.data.width = 16) (T : Transport) (c : Nat)
    (s : State) (hr : s.resolution_ = Resolution.AD5754R) :
    analogWrite H T c 65536 s = analogWrite H T c 0 s := by
  have hd : ∀ ca, dacDatagram H Resolution.AD5754R ca 65536 =
      dacDatagram H Resolution.AD5754R ca 0 := by
    intro ca
    simp [dacDatagram, Datagram.setDataLong, hw]
  unfold analogWrite
  rw [analogWriteToChip_state, analogWriteToChip_state, hr, hd]

/-- Claim C19 (representability of the advertised range).  The payload that `analogWrite`
puts on the bus is an injective function of the value over the interval from
`getMinDacValue` to `getMaxDacValue` exactly when the configuration is not 16-bit
unipolar.  In the 16-bit unipolar configuration the maximum 65536 is above `2 ^ 16 - 1`,
and `analogWrite c 65536` ends in the same state, with the same bytes on the bus, as
`analogWrite c 0`. -/
theorem advertised_range_representability (H : Header) (hL : H.FieldsOnWire)
    (hw : H.data.width = 16) (T : Transport) (c : Nat) (s : State) :
    ((∀ v w : Int, getMinDacValue s ≤ v → v ≤ getMaxDacValue s →
          getMinDacValue s ≤ w → w ≤ getMaxDacValue s →
          encodedPayload H T c s v = encodedPayload H T c s w → v = w) ↔
        ¬ (s.resolution_ = Resolution.AD5754R ∧ s.unipolar_ = true)) ∧
      (s.resolution_ = Resolution.AD5754R → s.unipolar_ = true →
        getMaxDacValue s = 65536 ∧ (2 ^ 16 - 1 : Int) < getMaxDacValue s ∧
        analogWrite H T c 65536 s = analogWrite H T c 0 s) := by
  constructor
  · simp only [encodedPayload_eq H hL hw, Option.some.injEq]
    unfold getMinDacValue getMaxDacValue
    constructor
    · rintro hinj ⟨hr, hu⟩
      have h := hinj 0 65536
      simp only [hr, hu, if_true, nativeWidth] at h
      have := h (by norm_num) (by norm_num) (by norm_num) (by norm_num) (by norm_num)
      omega
    · intro hne v w
      cases hr : s.resolution_ <;> cases hu : s.unipolar_ <;>
        simp only [hr, hu, nativeWidth, Bool.false_eq_true, if_false, if_true, and_self,
          not_true_eq_false] at hne ⊢ <;>
        norm_num <;> intro h1 h2 h3 h4 h5 <;> omega
  · intro hr hu
    refine ⟨?_, ?_, analogWrite_65536 H hw T c s hr⟩ <;>
      simp [getMaxDacValue, hr, hu]

theorem advertised_range_representability_witness :
    sampleHeader.FieldsOnWire ∧ sampleHeader.data.width = 16 ∧
    analogWrite sampleHeader silent 2 65536
        { sampleState with resolution_ := Resolution.AD5754R, unipolar_ := true } =
      analogWrite sampleHeader silent 2 0
        { sampleState with resolution_ := Resolution.AD5754R, unipolar_ := true } :=
  ⟨by decide, by decide,
    ((advertised_range_representability sampleHeader (by decide) (by decide) silent 2
      { sampleState with resolution_ := Resolution.AD5754R, unipolar_ := true }).2 rfl
      rfl).2.2⟩

/-- Claim C20 (the chip index does not reach the wire).  `writeMosiDatagramToChip` and
`readMisoDatagramFromChip` do the same, trace and result, whatever chip index they are
given.  Hence, with four channels per chip, `analogWrite`, `setOutputRange`,
`channelPoweredUp` and `channelOverCurrent` for a channel `c` end in the same state, with
the same bytes on the bus and the same result, as for the channel `c % 4`. -/
theorem chip_index_not_on_wire (H : Header) (hS : H.AsSpecified) (T : Transport)
    (mosi_datagram : Datagram) (chip_index chip_index' : Int) (c : Nat) (value : Int)
    (range : Range) (s : State) :
    writeMosiDatagramToChip H T chip_index mosi_datagram s =
        writeMosiDatagramToChip H T chip_index' mosi_datagram s ∧
      readMisoDatagramFromChip H T chip_index s =
        readMisoDatagramFromChip H T chip_index' s ∧
      analogWrite H T c value s = analogWrite H T (c % 4) value s ∧
      setOutputRange H T c range s = setOutputRange H T (c % 4) range s ∧
      channelPoweredUp H T c s = channelPoweredUp H T (c % 4) s ∧
      channelOverCurrent H T c s = channelOverCurrent H T (c % 4) s := by
  have hca := channelToChannelAddress_mod H hS c
  refine ⟨rfl, rfl, ?_, ?_, ?_, ?_⟩
  · unfold analogWrite
    rw [hca]
    rfl
  · unfold setOutputRange
    rw [hca]
    rfl
  · unfold channelPoweredUp
    rw [hca]
    rfl
  · unfold channelOverCurrent
    rw [hca]
    rfl

theorem chip_index_not_on_wire_witness :
    sampleHeader.AsSpecified ∧
    analogWrite sampleHeader silent 13 1000 sampleState =
      analogWrite sampleHeader silent (13 % 4) 1000 sampleState ∧
    channelOverCurrent sampleHeader silent 13 sampleState =
      channelOverCurrent sampleHeader silent (13 % 4) sampleState :=
  have h := chip_index_not_on_wire sampleHeader (by decide) silent ⟨0⟩ 0 3 13 1000
    Range.BIPOLAR_5V sampleState
  ⟨by decide, h.2.2.1, h.2.2.2.2.2⟩

end AD57X4R
